import Mathlib

/-!
Verification of the Enjin ingestion pipeline.

The Python sources under `src/ingestion/app` are shallowly embedded: Python
strings become lists of Unicode codepoints (`PyStr`), fallible operations
become `Except`/`Option`, network and other external collaborators become
explicit oracle parameters, and mutable state becomes explicit state passing.
All definitions are executable, so concrete behaviours can be settled with
`decide`/`rfl`.

The Unicode-dependent primitives (`str.lower`, `str.title`, NFC) carry the
exact Unicode data for ASCII plus the handful of Greek codepoints exercised by
the development; every other codepoint is treated as an uncased identity
character with combining class 0.  All universally quantified theorems below
either do not depend on these tables or restrict their domain accordingly.
-/

namespace Enjin

/-- A Python string, modelled as its list of Unicode codepoints. -/
abbrev PyStr := List Nat

/-- Python's `str.isspace` set (the Unicode whitespace codepoints recognised by
`str.split`/`str.strip` with no arguments). -/
def isPySpace (c : Nat) : Bool :=
  (9 ≤ c && c ≤ 13) || (28 ≤ c && c ≤ 31) || c == 32 || c == 133 || c == 160 ||
  c == 5760 || (8192 ≤ c && c ≤ 8202) || c == 8232 || c == 8233 || c == 8239 ||
  c == 8287 || c == 12288

/-- Python `s.strip()` with no arguments: drop leading and trailing whitespace. -/
def pyStrip (s : PyStr) : PyStr :=
  ((s.dropWhile isPySpace).reverse.dropWhile isPySpace).reverse

/-- Loop of Python `s.split()`: `acc` is the reversed current word. -/
def pySplitGo : PyStr → PyStr → List PyStr
  | [], acc => if acc = [] then [] else [acc.reverse]
  | c :: rest, acc =>
    if isPySpace c then
      if acc = [] then pySplitGo rest [] else acc.reverse :: pySplitGo rest []
    else pySplitGo rest (c :: acc)

/-- Python `s.split()` with no arguments: split on runs of whitespace,
producing no empty words. -/
def pySplit (s : PyStr) : List PyStr := pySplitGo s []

/-- Python `sep.join(words)`. -/
def pyJoin (sep : PyStr) : List PyStr → PyStr
  | [] => []
  | [w] => w
  | w :: ws => w ++ sep ++ pyJoin sep ws

/-- Loop of Python `s.splitlines()`: `acc` is the reversed current line; a
terminator at end of input closes the last line without an empty tail. -/
def pySplitLinesGo : PyStr → PyStr → List PyStr
  | [], acc => [acc.reverse]
  | 13 :: 10 :: r, acc => acc.reverse :: (if r = [] then [] else pySplitLinesGo r [])
  | 13 :: r, acc => acc.reverse :: (if r = [] then [] else pySplitLinesGo r [])
  | 10 :: r, acc => acc.reverse :: (if r = [] then [] else pySplitLinesGo r [])
  | c :: r, acc => pySplitLinesGo r (c :: acc)

/-- Python `s.splitlines()`, restricted to the LF / CR / CRLF line breaks that
occur in the modelled inputs. -/
def pySplitLines (s : PyStr) : List PyStr :=
  if s = [] then [] else pySplitLinesGo s []

/-- Python `s.split(sep)` for a single-character separator `sep` (keeps empty
fields, as `str.split` with an explicit separator does). -/
def pySplitChar (sep : Nat) : PyStr → List PyStr
  | [] => [[]]
  | c :: rest =>
    if c = sep then [] :: pySplitChar sep rest
    else
      match pySplitChar sep rest with
      | [] => [[c]]
      | w :: ws => (c :: w) :: ws

-- ── Case mapping and canonical (NFC) normalisation ───────────────────
-- Exact Unicode data is carried for ASCII and for the Greek codepoints
-- U+0390, U+0399, U+03AA, U+03B9, U+03CA together with the combining marks
-- U+0301 and U+0308; all other codepoints behave as uncased identity
-- characters of combining class 0.

/-- Full lowercase mapping of a single codepoint (Python `str.lower`, which
may expand to several codepoints in general). -/
def lowerCh (c : Nat) : List Nat :=
  if 65 ≤ c ∧ c ≤ 90 then [c + 32]
  else if c = 0x399 then [0x3B9]
  else if c = 0x3AA then [0x3CA]
  else [c]

/-- Full titlecase mapping of a single codepoint (Python `str.title` applies
this to the first cased character of each word).  Per Unicode SpecialCasing,
the titlecase of U+0390 is the three-codepoint sequence U+0399 U+0308 U+0301,
which is not NFC-normalised. -/
def titleCh (c : Nat) : List Nat :=
  if 97 ≤ c ∧ c ≤ 122 then [c - 32]
  else if c = 0x390 then [0x399, 0x308, 0x301]
  else if c = 0x3B9 then [0x399]
  else if c = 0x3CA then [0x3AA]
  else [c]

/-- Whether a codepoint is cased (drives Python `str.title` word boundaries). -/
def isCasedCh (c : Nat) : Bool :=
  (65 ≤ c && c ≤ 90) || (97 ≤ c && c ≤ 122) ||
  c == 0x390 || c == 0x399 || c == 0x3AA || c == 0x3B9 || c == 0x3CA

/-- Python `str.title`, one codepoint at a time: titlecase a character that
follows an uncased character, lowercase one that follows a cased character. -/
def pyTitleGo : Bool → PyStr → PyStr
  | _, [] => []
  | prevCased, c :: rest =>
    (if prevCased then lowerCh c else titleCh c) ++ pyTitleGo (isCasedCh c) rest

/-- Python `s.title()`. -/
def pyTitle (s : PyStr) : PyStr := pyTitleGo false s

/-- Python `s.lower()`. -/
def pyLower (s : PyStr) : PyStr := (s.map lowerCh).flatten

/-- The `prevCased` flag that `pyTitleGo` carries after consuming `s`,
starting from `b`. -/
def lastCasedAfter : Bool → PyStr → Bool
  | b, [] => b
  | _, c :: rest => lastCasedAfter (isCasedCh c) rest

/-- Canonical combining class (230 for the two modelled combining marks). -/
def cccOf (c : Nat) : Nat :=
  if c = 0x301 then 230 else if c = 0x308 then 230 else 0

/-- Canonical decomposition (one level) of the modelled precomposed
codepoints. -/
def decompOf (c : Nat) : Option (Nat × Nat) :=
  if c = 0x390 then some (0x3CA, 0x301)
  else if c = 0x3CA then some (0x3B9, 0x308)
  else if c = 0x3AA then some (0x399, 0x308)
  else none

/-- Recursive full canonical decomposition of one codepoint (depth-bounded;
the modelled table has depth at most 2). -/
def decomposeCh : Nat → Nat → List Nat
  | 0, c => [c]
  | fuel + 1, c =>
    match decompOf c with
    | none => [c]
    | some (a, b) => decomposeCh fuel a ++ decomposeCh fuel b

/-- Loop of the canonical-ordering bubble pass, carrying the previous
codepoint. -/
def reorderGo : Nat → PyStr → PyStr
  | a, [] => [a]
  | a, b :: rest =>
    if cccOf b ≠ 0 ∧ cccOf b < cccOf a then b :: reorderGo a rest
    else a :: reorderGo b rest

/-- One pass of the canonical-ordering bubble: swap adjacent combining marks
that are out of canonical-combining-class order. -/
def reorderPass : PyStr → PyStr
  | [] => []
  | c :: rest => reorderGo c rest

/-- Iterate the reordering pass. -/
def reorderN : Nat → PyStr → PyStr
  | 0, s => s
  | n + 1, s => reorderN n (reorderPass s)

/-- The Unicode canonical ordering of a decomposed sequence. -/
def canonicalOrder (s : PyStr) : PyStr := reorderN s.length s

/-- Primary composite of a pair of codepoints, per the Unicode composition
table (restricted to the modelled codepoints; note that no precomposed
capital iota with dialytika and tonos exists). -/
def composeOf (a b : Nat) : Option Nat :=
  if a = 0x3B9 ∧ b = 0x308 then some 0x3CA
  else if a = 0x3CA ∧ b = 0x301 then some 0x390
  else if a = 0x399 ∧ b = 0x308 then some 0x3AA
  else none

/-- Unicode canonical composition: recombine a canonically ordered, fully
decomposed sequence.  `starter` is the last starter seen, `marks` the
not-yet-combined combining marks after it. -/
def composeGo : Option Nat → List Nat → PyStr → PyStr
  | none, marks, [] => marks
  | some st, marks, [] => st :: marks
  | none, marks, c :: rest =>
    if cccOf c = 0 then marks ++ composeGo (some c) [] rest
    else composeGo none (marks ++ [c]) rest
  | some st, marks, c :: rest =>
    if cccOf c = 0 then
      match (if marks = [] then composeOf st c else none) with
      | some p => composeGo (some p) marks rest
      | none => (st :: marks) ++ composeGo (some c) [] rest
    else
      if marks.all (fun m => cccOf m < cccOf c) then
        match composeOf st c with
        | some p => composeGo (some p) marks rest
        | none => composeGo (some st) (marks ++ [c]) rest
      else composeGo (some st) (marks ++ [c]) rest

/-- Unicode NFC normalisation (`unicodedata.normalize("NFC", s)`): full
canonical decomposition, canonical ordering, canonical composition. -/
def nfc (s : PyStr) : PyStr :=
  composeGo none [] (canonicalOrder ((s.map (decomposeCh 4)).flatten))

-- ── String literal constants used by the embedded modules ───────────

/-- Codepoints of the Python string literal 'PERSON'. -/
def sPERSON : PyStr := [80, 69, 82, 83, 79, 78]

/-- Codepoints of the Python string literal 'ORG'. -/
def sORG : PyStr := [79, 82, 71]

/-- Codepoints of the Python string literal 'GPE'. -/
def sGPE : PyStr := [71, 80, 69]

/-- Codepoints of the Python string literal 'LOC'. -/
def sLOC : PyStr := [76, 79, 67]

/-- Codepoints of the Python string literal 'person'. -/
def sperson : PyStr := [112, 101, 114, 115, 111, 110]

/-- Codepoints of the Python string literal 'org'. -/
def sorg : PyStr := [111, 114, 103]

/-- Codepoints of the Python string literal 'location'. -/
def slocation : PyStr := [108, 111, 99, 97, 116, 105, 111, 110]

/-- Codepoints of the Python string literal 'organization'. -/
def sorganization : PyStr := [111, 114, 103, 97, 110, 105, 122, 97, 116, 105, 111, 110]

/-- Codepoints of the Python string literal 'Person'. -/
def sPersonLabel : PyStr := [80, 101, 114, 115, 111, 110]

/-- Codepoints of the Python string literal 'Organization'. -/
def sOrganizationLabel : PyStr := [79, 114, 103, 97, 110, 105, 122, 97, 116, 105, 111, 110]

/-- Codepoints of the Python string literal 'Location'. -/
def sLocationLabel : PyStr := [76, 111, 99, 97, 116, 105, 111, 110]

/-- Codepoints of the Python string literal 'Entity'. -/
def sEntityLabel : PyStr := [69, 110, 116, 105, 116, 121]

/-- Codepoints of the Python string literal 'rss'. -/
def srss : PyStr := [114, 115, 115]

/-- Codepoints of the Python string literal 'gdelt'. -/
def sgdelt : PyStr := [103, 100, 101, 108, 116]

/-- Codepoints of the Python string literal 'cvr'. -/
def scvr : PyStr := [99, 118, 114]

/-- Codepoints of the Python string literal 'rss:'. -/
def keyRss : PyStr := [114, 115, 115, 58]

/-- Codepoints of the Python string literal 'gdelt:'. -/
def keyGdelt : PyStr := [103, 100, 101, 108, 116, 58]

/-- Codepoints of the Python string literal 'cvr:'. -/
def keyCvr : PyStr := [99, 118, 114, 58]

/-- Codepoints of the Python string literal '.export.CSV.zip'. -/
def sExportSuffix : PyStr := [46, 101, 120, 112, 111, 114, 116, 46, 67, 83, 86, 46, 122, 105, 112]

/-- Codepoints of the Python string literal 'unknown'. -/
def sUnknown : PyStr := [117, 110, 107, 110, 111, 119, 110]

/-- Codepoints of the Python string literal 'GDELT event '. -/
def sGdeltEvent : PyStr := [71, 68, 69, 76, 84, 32, 101, 118, 101, 110, 116, 32]

/-- Codepoints of the Python string literal 'CAMEO '. -/
def sCAMEOsp : PyStr := [67, 65, 77, 69, 79, 32]

/-- Codepoints of the Python string literal ': '. -/
def sColonSp : PyStr := [58, 32]

/-- Codepoints of the Python string literal ' -- '. -/
def sepDashes : PyStr := [32, 45, 45, 32]

/-- Codepoints of the Python string literal ' (CVR: '. -/
def sCvrOpen : PyStr := [32, 40, 67, 86, 82, 58, 32]

/-- Codepoints of the Python string literal ')'. -/
def sParenClose : PyStr := [41]

/-- Codepoints of the Python string literal 'https://datacvr.virk.dk/enhed/virksomhed/'. -/
def sCvrUrlBase : PyStr := [104, 116, 116, 112, 115, 58, 47, 47, 100, 97, 116, 97, 99, 118, 114, 46, 118, 105, 114, 107, 46, 100, 107, 47, 101, 110, 104, 101, 100, 47, 118, 105, 114, 107, 115, 111, 109, 104, 101, 100, 47]

/-- Codepoints of the Python string literal 'Danish company: '. -/
def sDanishCompany : PyStr := [68, 97, 110, 105, 115, 104, 32, 99, 111, 109, 112, 97, 110, 121, 58, 32]

/-- Codepoints of the Python string literal '. Industry: '. -/
def sDotIndustry : PyStr := [46, 32, 73, 110, 100, 117, 115, 116, 114, 121, 58, 32]

/-- Codepoints of the Python string literal '.'. -/
def sDot : PyStr := [46]

-- ── pipeline/normalizer.py : EntityNormalizer.normalize_name ─────────

/-- EntityNormalizer.normalize_name: NFC-normalise, strip and collapse
whitespace, then title-case; the empty string maps to itself. -/
def normalizeName (name : PyStr) : PyStr :=
  if name = [] then []
  else pyTitle (pyJoin [32] (pySplit (nfc name)))

-- ── difflib.SequenceMatcher (as used by EntityNormalizer._similarity) ─
-- The inputs compared by the normaliser are far below difflib's autojunk
-- threshold of 200 characters, so the junk machinery never fires and is
-- modelled as empty junk sets.

/-- Lookup in an association list used as difflib's j2len dict (missing key
means 0). -/
def alookup (l : List (Nat × Nat)) (k : Nat) : Nat :=
  match l.find? (fun p => p.1 == k) with
  | some p => p.2
  | none => 0

/-- The positions of codepoint `x` in `b`, in increasing order (difflib's
b2j). -/
def positionsOf (b : PyStr) (x : Nat) : List Nat :=
  (List.range b.length).filter (fun j => b.getD j 0 == x)

/-- Inner loop of difflib's find_longest_match: one row `i`, scanning the
positions `js` of `a[i]` in `b`.  Returns the new j2len map and the updated
(besti, bestj, bestsize). -/
def flmJs (i : Nat) (j2len : List (Nat × Nat)) :
    List Nat → List (Nat × Nat) → Nat × Nat × Nat → List (Nat × Nat) × (Nat × Nat × Nat)
  | [], newj2len, best => (newj2len, best)
  | j :: js, newj2len, best =>
    let k := (if j = 0 then 0 else alookup j2len (j - 1)) + 1
    let best2 := if best.2.2 < k then (i + 1 - k, j + 1 - k, k) else best
    flmJs i j2len js ((j, k) :: newj2len) best2

/-- Outer loop of find_longest_match over the rows `is` of `a`. -/
def flmRows (a b : PyStr) (blo bhi : Nat) :
    List Nat → List (Nat × Nat) → Nat × Nat × Nat → Nat × Nat × Nat
  | [], _, best => best
  | i :: is, j2len, best =>
    let js := (positionsOf b (a.getD i 0)).filter (fun j => blo ≤ j && j < bhi)
    let (newj2len, best2) := flmJs i j2len js [] best
    flmRows a b blo bhi is newj2len best2

/-- Backward extension of the best block over equal characters (difflib's
first while loop; with no junk the remaining loops cannot fire).  The loop
decrements `bi`, so recursion is structural on it. -/
def extendBack (a b : PyStr) (alo blo : Nat) : Nat → Nat → Nat → Nat × Nat × Nat
  | 0, bj, bs => (0, bj, bs)
  | bi + 1, bj, bs =>
    if alo < bi + 1 ∧ blo < bj ∧ a.getD bi 0 = b.getD (bj - 1) 0 then
      extendBack a b alo blo bi (bj - 1) (bs + 1)
    else (bi + 1, bj, bs)

/-- Forward extension of the best block over equal characters (difflib's
second while loop), driven by fuel; each iteration requires `bi + bs < ahi`
and grows `bs`, so any fuel of at least `ahi` runs the loop to completion. -/
def extendFwdGo (a b : PyStr) (ahi bhi : Nat) : Nat → Nat → Nat → Nat → Nat × Nat × Nat
  | 0, bi, bj, bs => (bi, bj, bs)
  | fuel + 1, bi, bj, bs =>
    if bi + bs < ahi ∧ bj + bs < bhi ∧ a.getD (bi + bs) 0 = b.getD (bj + bs) 0 then
      extendFwdGo a b ahi bhi fuel bi bj (bs + 1)
    else (bi, bj, bs)

/-- Forward extension with sufficient fuel. -/
def extendFwd (a b : PyStr) (ahi bhi bi bj bs : Nat) : Nat × Nat × Nat :=
  extendFwdGo a b ahi bhi (ahi + 1) bi bj bs

/-- difflib's SequenceMatcher.find_longest_match on `a[alo:ahi]` and
`b[blo:bhi]`, with empty junk sets. -/
def findLongestMatch (a b : PyStr) (alo ahi blo bhi : Nat) : Nat × Nat × Nat :=
  let best := flmRows a b blo bhi (List.range' alo (ahi - alo)) [] (alo, blo, 0)
  let back := extendBack a b alo blo best.1 best.2.1 best.2.2
  extendFwd a b ahi bhi back.1 back.2.1 back.2.2

/-- Total size of the matching blocks of get_matching_blocks: recursively
split around the longest match.  The fuel dominates the recursion depth. -/
def matchTotal (a b : PyStr) : Nat → Nat × Nat × Nat × Nat → Nat
  | 0, _ => 0
  | fuel + 1, (alo, ahi, blo, bhi) =>
    let (i, j, k) := findLongestMatch a b alo ahi blo bhi
    if k = 0 then 0
    else k + matchTotal a b fuel (alo, i, blo, j) + matchTotal a b fuel (i + k, ahi, j + k, bhi)

/-- Total matched size of difflib's SequenceMatcher(None, a, b). -/
def smMatches (a b : PyStr) : Nat :=
  matchTotal a b (a.length + b.length + 1) (0, a.length, 0, b.length)

/-- difflib's SequenceMatcher(None, a, b).ratio() = 2*M / (len a + len b), as
an exact rational. -/
def smRatio (a b : PyStr) : Rat :=
  if a.length + b.length = 0 then 1
  else (2 * smMatches a b : Rat) / ((a.length : Rat) + (b.length : Rat))

/-- EntityNormalizer._similarity: 0 when either name is empty, otherwise the
SequenceMatcher ratio of the lowercased names. -/
def similarity (a b : PyStr) : Rat :=
  if a = [] ∨ b = [] then 0 else smRatio (pyLower a) (pyLower b)

/-- The comparison `_similarity(a, b) >= threshold` performed by
_find_match, in cross-multiplied integer form (so that it evaluates by
kernel reduction); `similarityGe_iff` below proves it equal to the rational
comparison. -/
def similarityGe (θ : Rat) (a b : PyStr) : Bool :=
  if a = [] ∨ b = [] then decide (θ ≤ 0)
  else
    let la := pyLower a
    let lb := pyLower b
    decide (θ.num * ((la.length : Int) + (lb.length : Int)) ≤
      2 * (smMatches la lb : Int) * (θ.den : Int))

/-- The default similarity threshold 0.85 (normalizer.py
_DEFAULT_SIMILARITY_THRESHOLD), as the exact rational 17/20.  The Python
float literal 0.85 differs from 17/20 by less than 6.0e-17, while all
compared ratios are rationals with denominator at most the sum of the two
name lengths, so every comparison performed by the code has the same outcome
over ℚ. -/
def defaultThreshold : Rat := ⟨17, 20, by decide, by norm_num [Nat.Coprime]⟩

-- ── pipeline/extractor.py and pipeline/normalizer.py : data model ────

/-- An ExtractedEntity (extractor.py).  The `confidence` field is a float
constant 1.0 never read by the pipeline and is not modelled. -/
structure ExtractedEntity where
  name : PyStr
  type : PyStr
  span_start : Nat
  span_end : Nat
deriving DecidableEq, Repr

/-- A NormalisedEntity (normalizer.py).  The `metadata` field is always
left empty by deduplicate_entities and is not modelled. -/
structure NormalisedEntity where
  name : PyStr
  type : PyStr
  occurrences : Nat
  source_spans : List (Nat × Nat)
deriving DecidableEq, Repr, Inhabited

/-- Replace the element at index `i` (out-of-range indices leave the list
unchanged). -/
def listModify (f : NormalisedEntity → NormalisedEntity) :
    Nat → List NormalisedEntity → List NormalisedEntity
  | _, [] => []
  | 0, x :: xs => f x :: xs
  | n + 1, x :: xs => x :: listModify f n xs

/-- EntityNormalizer._find_match as an index search: the first candidate of
the same type whose similarity with the normalised name reaches the
threshold. -/
def findMatchGo (θ : Rat) (normName ty : PyStr) :
    List NormalisedEntity → Nat → Option Nat
  | [], _ => none
  | c :: cs, i =>
    if c.type = ty ∧ similarityGe θ normName c.name then some i
    else findMatchGo θ normName ty cs (i + 1)

/-- Index of the merge candidate found by EntityNormalizer._find_match. -/
def findMatch (θ : Rat) (normName ty : PyStr) (cands : List NormalisedEntity) : Option Nat :=
  findMatchGo θ normName ty cands 0

/-- EntityNormalizer.merge_entity: bump occurrences, record the span, and
adopt the strictly longer normalised name. -/
def mergeEntity (existing : NormalisedEntity) (ent : ExtractedEntity) : NormalisedEntity :=
  let bumped : NormalisedEntity :=
    { existing with
      occurrences := existing.occurrences + 1
      source_spans := existing.source_spans ++ [(ent.span_start, ent.span_end)] }
  let normNew := normalizeName ent.name
  if existing.name.length < normNew.length then { bumped with name := normNew } else bumped

/-- Loop of EntityNormalizer.deduplicate_entities over the input entities,
carrying the merged result list. -/
def dedupGo (θ : Rat) : List ExtractedEntity → List NormalisedEntity → List NormalisedEntity
  | [], merged => merged
  | ent :: rest, merged =>
    let normName := normalizeName ent.name
    match findMatch θ normName ent.type merged with
    | some i => dedupGo θ rest (listModify (fun c => mergeEntity c ent) i merged)
    | none =>
      dedupGo θ rest
        (merged ++ [{ name := normName, type := ent.type, occurrences := 1,
                      source_spans := [(ent.span_start, ent.span_end)] }])

/-- EntityNormalizer.deduplicate_entities with similarity threshold `θ`. -/
def deduplicateEntities (θ : Rat) (entities : List ExtractedEntity) : List NormalisedEntity :=
  dedupGo θ entities []

/-- Instrumented rerun of the deduplication loop that reports whether any
merge adopted a strictly longer name (the branch at normalizer.py:102). -/
def adoptionFreeGo (θ : Rat) : List ExtractedEntity → List NormalisedEntity → Bool
  | [], _ => true
  | ent :: rest, merged =>
    let normName := normalizeName ent.name
    match findMatch θ normName ent.type merged with
    | some i =>
      if (merged.getD i default).name.length < normName.length then false
      else adoptionFreeGo θ rest (listModify (fun c => mergeEntity c ent) i merged)
    | none =>
      adoptionFreeGo θ rest
        (merged ++ [{ name := normName, type := ent.type, occurrences := 1,
                      source_spans := [(ent.span_start, ent.span_end)] }])

/-- Whether a run of deduplicate_entities on `entities` never adopts a longer
name during a merge. -/
def adoptionFree (θ : Rat) (entities : List ExtractedEntity) : Bool :=
  adoptionFreeGo θ entities []

-- ── pipeline/extractor.py : EntityExtractor ──────────────────────────

/-- A spaCy entity span as consumed by extract_entities: the opaque tagger
output (ent.text, ent.label_, ent.start_char, ent.end_char). -/
structure SpacyEnt where
  text : PyStr
  label : PyStr
  start_char : Nat
  end_char : Nat
deriving DecidableEq, Repr

/-- The _SPACY_LABEL_MAP of extractor.py: PERSON/ORG/GPE/LOC to the canonical
types; anything else is unmapped. -/
def spacyLabelMap (label : PyStr) : Option PyStr :=
  if label = sPERSON then some sperson
  else if label = sORG then some sorg
  else if label = sGPE then some slocation
  else if label = sLOC then some slocation
  else none

/-- The entity-construction loop of extract_entities: keep the spans whose
label is mapped, stripping the surface text. -/
def rawEntitiesOf (ents : List SpacyEnt) : List ExtractedEntity :=
  ents.filterMap fun e =>
    (spacyLabelMap e.label).map fun ty =>
      { name := pyStrip e.text, type := ty,
        span_start := e.start_char, span_end := e.end_char }

/-- The deduplication key of EntityExtractor._deduplicate:
(name.lower().strip(), type). -/
def dedupKey (e : ExtractedEntity) : PyStr × PyStr :=
  (pyStrip (pyLower e.name), e.type)

/-- Loop of EntityExtractor._deduplicate: a dict keyed by dedupKey in which
only the first occurrence is stored, read out in insertion order. -/
def extractorDedupGo : List ExtractedEntity → List (PyStr × PyStr) → List ExtractedEntity
  | [], _ => []
  | e :: rest, seen =>
    if dedupKey e ∈ seen then extractorDedupGo rest seen
    else e :: extractorDedupGo rest (seen ++ [dedupKey e])

/-- EntityExtractor._deduplicate. -/
def extractorDeduplicate (entities : List ExtractedEntity) : List ExtractedEntity :=
  extractorDedupGo entities []

/-- EntityExtractor.extract_entities, with the loaded spaCy model as an
opaque oracle from text to entity spans. -/
def extractEntities (nlp : PyStr → List SpacyEnt) (text : PyStr) : List ExtractedEntity :=
  if text = [] ∨ pyStrip text = [] then []
  else extractorDeduplicate (rawEntitiesOf (nlp text))

-- ── tasks/ingest.py : _neo4j_label ───────────────────────────────────

/-- The _neo4j_label mapping of ingest.py: person/org/location to node
labels, anything else to Entity. -/
def neo4jLabel (entityType : PyStr) : PyStr :=
  if entityType = sperson then sPersonLabel
  else if entityType = sorg then sOrganizationLabel
  else if entityType = slocation then sLocationLabel
  else sEntityLabel

-- ── pipeline/geocoder.py : Geocoder.geocode ──────────────────────────

/-- A GeoResult.  Latitude and longitude are parsed floats in the source,
carried here as uninterpreted rationals (no claim computes with them). -/
structure GeoResult where
  name : PyStr
  latitude : Rat
  longitude : Rat
  country : Option PyStr
  region : Option PyStr
deriving DecidableEq, Repr

/-- The mutable state of a Geocoder instance: the insertion-ordered cache
mapping normalised names to outcomes (including negative outcomes), plus a
count of external requests issued.  The rate-limit bookkeeping
(last_request_time) is wall-clock time and is not part of the state model. -/
structure GeoState where
  cache : List (PyStr × Option GeoResult)
  requests : Nat
deriving DecidableEq, Repr

/-- First cache entry for a key, if any. -/
def cacheLookup (cache : List (PyStr × Option GeoResult)) (key : PyStr) :
    Option (Option GeoResult) :=
  (cache.find? (fun p => p.1 = key)).map (fun p => p.2)

/-- Geocoder.geocode with the Nominatim HTTP round trip as an oracle `net`
(`_nominatim_search` absorbs all its failures into `none`).  On a cache miss
the outcome — negative outcomes included — is cached, evicting the oldest
entry at capacity.  The Python code would raise StopIteration when
`cache_maxsize = 0` and the cache is empty; the model is used with the
positive capacities the source configures (default 2048). -/
def geocode (net : PyStr → Option GeoResult) (maxsize : Nat) (st : GeoState)
    (locationName : PyStr) : Option GeoResult × GeoState :=
  if locationName = [] ∨ pyStrip locationName = [] then (none, st)
  else
    let cacheKey := pyLower (pyStrip locationName)
    match cacheLookup st.cache cacheKey with
    | some v => (v, st)
    | none =>
      let result := net locationName
      let afterEvict := if maxsize ≤ st.cache.length then st.cache.tail else st.cache
      (result, { cache := afterEvict ++ [(cacheKey, result)], requests := st.requests + 1 })

-- ── tasks/ingest.py : process_raw_items ──────────────────────────────

/-- A persisted raw row as seen by the sweep: its id and processed flag
(the remaining columns do not affect the sweep bookkeeping and are carried
by the pipeline outcome oracle). -/
structure RowRec where
  id : Nat
  processed : Bool
deriving DecidableEq, Repr

/-- The record returned by process_raw_items.  An empty batch returns the
one-key record `{"processed": 0}`, modelled by `errors = none`. -/
structure SweepResult where
  processed : Nat
  errors : Option Nat
deriving DecidableEq, Repr

/-- The UPDATE of _mark_processed: set the processed flag of the row with the
given id. -/
def markProcessed (db : List RowRec) (itemId : Nat) : List RowRec :=
  db.map fun r => if r.id = itemId then { r with processed := true } else r

/-- The SELECT of _load_unprocessed: up to `batchSize` unprocessed rows,
oldest (insertion order) first. -/
def loadUnprocessed (db : List RowRec) (batchSize : Nat) : List RowRec :=
  (db.filter (fun r => !r.processed)).take batchSize

/-- The per-row loop of process_raw_items: `ok` is the outcome of
_process_single_item on that row (`false` means it raised).  The
accumulator carries (processed count, error count, store state, the ids
passed to _mark_processed). -/
def sweepGo (ok : Nat → Bool) :
    List RowRec → Nat × Nat × List RowRec × List Nat → Nat × Nat × List RowRec × List Nat
  | [], acc => acc
  | r :: rest, (p, e, db, calls) =>
    if ok r.id then sweepGo ok rest (p + 1, e, markProcessed db r.id, calls ++ [r.id])
    else sweepGo ok rest (p, e + 1, db, calls)

/-- process_raw_items: load a batch, run the pipeline per row isolating
errors, and report `{processed, errors}` (or `{processed: 0}` when there was
nothing to process).  Also returns the final store state and the list of
mark_processed calls. -/
def processRawItems (ok : Nat → Bool) (batchSize : Nat) (db : List RowRec) :
    SweepResult × List RowRec × List Nat :=
  let rows := loadUnprocessed db batchSize
  if rows.isEmpty then ({ processed := 0, errors := none }, db, [])
  else
    let acc := sweepGo ok rows (0, 0, db, [])
    ({ processed := acc.1, errors := some acc.2.1 }, acc.2.2.1, acc.2.2.2)

-- ── external_id computation: hashlib.sha256(...).hexdigest()[:32] ────
-- A full executable SHA-256 over byte lists, with 32-bit words as naturals
-- reduced modulo 2^32.

/-- The eight 32-bit words of a SHA-256 hash state. -/
structure Sha8 where
  a : Nat
  b : Nat
  c : Nat
  d : Nat
  e : Nat
  f : Nat
  g : Nat
  h : Nat
deriving DecidableEq, Repr

/-- The 64 SHA-256 round constants (first 32 bits of the fractional parts of the cube
roots of the first 64 primes). -/
def shaK : List Nat := [
  1116352408, 1899447441, 3049323471, 3921009573, 961987163, 1508970993, 2453635748, 2870763221,
  3624381080, 310598401, 607225278, 1426881987, 1925078388, 2162078206, 2614888103, 3248222580,
  3835390401, 4022224774, 264347078, 604807628, 770255983, 1249150122, 1555081692, 1996064986,
  2554220882, 2821834349, 2952996808, 3210313671, 3336571891, 3584528711, 113926993, 338241895,
  666307205, 773529912, 1294757372, 1396182291, 1695183700, 1986661051, 2177026350, 2456956037,
  2730485921, 2820302411, 3259730800, 3345764771, 3516065817, 3600352804, 4094571909, 275423344,
  430227734, 506948616, 659060556, 883997877, 958139571, 1322822218, 1537002063, 1747873779,
  1955562222, 2024104815, 2227730452, 2361852424, 2428436474, 2756734187, 3204031479, 3329325298]

/-- The initial SHA-256 hash state. -/
def shaInit : Sha8 := ⟨1779033703, 3144134277, 1013904242, 2773480762, 1359893119, 2600822924, 528734635, 1541459225⟩

/-- Reduce to a 32-bit word. -/
def w32 (n : Nat) : Nat := n % 4294967296

/-- Right rotation of a 32-bit word. -/
def rotr (n x : Nat) : Nat := w32 ((x >>> n) ||| (x <<< (32 - n)))

/-- SHA-256 Σ0. -/
def bsig0 (x : Nat) : Nat := rotr 2 x ^^^ rotr 13 x ^^^ rotr 22 x

/-- SHA-256 Σ1. -/
def bsig1 (x : Nat) : Nat := rotr 6 x ^^^ rotr 11 x ^^^ rotr 25 x

/-- SHA-256 σ0. -/
def ssig0 (x : Nat) : Nat := rotr 7 x ^^^ rotr 18 x ^^^ (x >>> 3)

/-- SHA-256 σ1. -/
def ssig1 (x : Nat) : Nat := rotr 17 x ^^^ rotr 19 x ^^^ (x >>> 10)

/-- SHA-256 Ch(e,f,g), with complement as xor against the 32-bit mask. -/
def chF (e f g : Nat) : Nat := (e &&& f) ^^^ ((e ^^^ 4294967295) &&& g)

/-- SHA-256 Maj(a,b,c). -/
def majF (a b c : Nat) : Nat := (a &&& b) ^^^ (a &&& c) ^^^ (b &&& c)

/-- Extend a 16-word block to the 64-word message schedule (48 steps). -/
def buildW (acc : List Nat) : Nat → List Nat
  | 0 => acc
  | n + 1 =>
    let i := acc.length
    buildW
      (acc ++ [w32 (ssig1 (acc.getD (i - 2) 0) + acc.getD (i - 7) 0 +
        ssig0 (acc.getD (i - 15) 0) + acc.getD (i - 16) 0)]) n

/-- One round of the SHA-256 compression function. -/
def compressStep (st : Sha8) (kw : Nat × Nat) : Sha8 :=
  let t1 := w32 (st.h + bsig1 st.e + chF st.e st.f st.g + kw.1 + kw.2)
  let t2 := w32 (bsig0 st.a + majF st.a st.b st.c)
  ⟨w32 (t1 + t2), st.a, st.b, st.c, w32 (st.d + t1), st.e, st.f, st.g⟩

/-- Compress one 16-word block into the running hash state. -/
def compressBlock (h0 : Sha8) (block : List Nat) : Sha8 :=
  let st := ((shaK.zip (buildW block 48)).foldl compressStep h0)
  ⟨w32 (h0.a + st.a), w32 (h0.b + st.b), w32 (h0.c + st.c), w32 (h0.d + st.d),
   w32 (h0.e + st.e), w32 (h0.f + st.f), w32 (h0.g + st.g), w32 (h0.h + st.h)⟩

/-- Big-endian byte expansion of fixed width. -/
def toBytesBE : Nat → Nat → List Nat
  | 0, _ => []
  | k + 1, n => toBytesBE k (n / 256) ++ [n % 256]

/-- SHA-256 message padding: 0x80, zeros to 56 mod 64, then the 64-bit
big-endian bit length. -/
def shaPad (msg : List Nat) : List Nat :=
  let z := (120 - ((msg.length + 1) % 64)) % 64
  msg ++ [128] ++ List.replicate z 0 ++ toBytesBE 8 ((8 * msg.length) % 18446744073709551616)

/-- Group bytes into big-endian 32-bit words. -/
def wordsOfBytes : List Nat → List Nat
  | b0 :: b1 :: b2 :: b3 :: rest =>
    (((b0 * 256 + b1) * 256 + b2) * 256 + b3) :: wordsOfBytes rest
  | _ => []

/-- Group a word list into 16-word blocks, with fuel bounding the number of
blocks (any fuel of at least the list length suffices). -/
def blocksOfGo : Nat → List Nat → List (List Nat)
  | _, [] => []
  | 0, _ :: _ => []
  | fuel + 1, w :: ws => (w :: ws).take 16 :: blocksOfGo fuel ((w :: ws).drop 16)

/-- Group a word list into 16-word blocks. -/
def blocksOf (l : List Nat) : List (List Nat) := blocksOfGo l.length l

/-- The SHA-256 hash state of a byte message. -/
def sha256H (msg : List Nat) : Sha8 :=
  (blocksOf (wordsOfBytes (shaPad msg))).foldl compressBlock shaInit

/-- Big-endian bytes of one hash word. -/
def wordBytesBE (w : Nat) : List Nat :=
  [w / 16777216 % 256, w / 65536 % 256, w / 256 % 256, w % 256]

/-- The 32-byte SHA-256 digest of a byte message. -/
def sha256Bytes (msg : List Nat) : List Nat :=
  let h := sha256H msg
  wordBytesBE h.a ++ wordBytesBE h.b ++ wordBytesBE h.c ++ wordBytesBE h.d ++
    wordBytesBE h.e ++ wordBytesBE h.f ++ wordBytesBE h.g ++ wordBytesBE h.h

/-- The sixteen lowercase hex digit codepoints. -/
def hexDigitsList : List Nat := [48, 49, 50, 51, 52, 53, 54, 55, 56, 57, 97, 98, 99, 100, 101, 102]

/-- Codepoint of the hex digit with value `n`. -/
def hexDigit (n : Nat) : Nat := hexDigitsList.getD n 48

/-- Two hex digit codepoints of one byte. -/
def byteHex (b : Nat) : List Nat := [hexDigit (b / 16), hexDigit (b % 16)]

/-- hashlib's hexdigest: lowercase hex codepoints of the digest bytes. -/
def hexDigest (bytes : List Nat) : PyStr := (bytes.map byteHex).flatten

/-- UTF-8 encoding of one codepoint (str.encode()). -/
def utf8Ch (c : Nat) : List Nat :=
  if c < 128 then [c]
  else if c < 2048 then [192 + c / 64, 128 + c % 64]
  else if c < 65536 then [224 + c / 4096, 128 + c / 64 % 64, 128 + c % 64]
  else [240 + c / 262144, 128 + c / 4096 % 64, 128 + c / 64 % 64, 128 + c % 64]

/-- UTF-8 encoding of a Python string. -/
def utf8Encode (s : PyStr) : List Nat := (s.map utf8Ch).flatten

/-- hashlib.sha256(key.encode()).hexdigest()[:32], the external-id digest
shared by all three adapters. -/
def externalIdOf (key : PyStr) : PyStr := (hexDigest (sha256Bytes (utf8Encode key))).take 32

/-- RSS external id: digest of "rss:" + entry link (rss.py:62). -/
def rssExternalId (link : PyStr) : PyStr := externalIdOf (keyRss ++ link)

/-- GDELT external id: digest of "gdelt:" + global event id (gdelt.py:165). -/
def gdeltExternalId (eventId : PyStr) : PyStr := externalIdOf (keyGdelt ++ eventId)

/-- CVR external id: digest of "cvr:" + registration number (cvr.py:85). -/
def cvrExternalId (cvrNumber : PyStr) : PyStr := externalIdOf (keyCvr ++ cvrNumber)


-- ── adapters/base.py : RawItem ───────────────────────────────────────

/-- A datetime as constructed by the adapters.  Only the date components are
modelled: the adapters build dates at midnight UTC, and no claim inspects a
time of day.  RSS timestamps come from oracles and carry the same shape. -/
structure PyDateTime where
  year : Nat
  month : Nat
  day : Nat
deriving DecidableEq, Repr

/-- A RawItem (adapters/base.py).  The `metadata` mapping (adapter-specific
JSON values, floating-point fields among them) is read by no claim and is not
modelled. -/
structure RawItem where
  source_adapter : PyStr
  external_id : PyStr
  title : PyStr
  content : Option PyStr
  summary : Option PyStr
  authors : List PyStr
  published_at : Option PyDateTime
  source_url : Option PyStr
deriving DecidableEq, Repr, Inhabited

-- ── date parsing helpers (datetime.strptime, as used by the adapters) ─

/-- ASCII digit test. -/
def isDigitCh (c : Nat) : Bool := 48 ≤ c && c ≤ 57

/-- Decimal value of a digit string. -/
def digitsVal (s : PyStr) : Nat := s.foldl (fun a c => 10 * a + (c - 48)) 0

/-- Gregorian leap year rule. -/
def leapYear (y : Nat) : Bool := (y % 4 == 0 && !(y % 100 == 0)) || y % 400 == 0

/-- Days in a month. -/
def daysInMonth (y m : Nat) : Nat :=
  if m = 2 then (if leapYear y then 29 else 28)
  else if m = 4 ∨ m = 6 ∨ m = 9 ∨ m = 11 then 30
  else 31

/-- The date validation performed by datetime.strptime / datetime. -/
def validDate (y m d : Nat) : Bool :=
  1 ≤ y && y ≤ 9999 && 1 ≤ m && m ≤ 12 && 1 ≤ d && d ≤ daysInMonth y m

/-- GDELTAdapter._parse_gdelt_date: strptime(date_str[:8], "%Y%m%d"); with
eight characters available the only successful parse is the all-digit
4-2-2 split, validated as a real date. -/
def parseGdeltDate (dateStr : PyStr) : Option PyDateTime :=
  if dateStr.length < 8 then none
  else
    let s8 := dateStr.take 8
    if s8.all isDigitCh then
      let y := digitsVal (s8.take 4)
      let m := digitsVal ((s8.drop 4).take 2)
      let d := digitsVal (s8.drop 6)
      if validDate y m d then some ⟨y, m, d⟩ else none
    else none

/-- Parse up to `maxw` digits greedily, returning value and remainder. -/
def parseNumUpTo (maxw : Nat) (s : PyStr) : Option (Nat × PyStr) :=
  let ds := (s.takeWhile isDigitCh).take maxw
  if ds = [] then none else some (digitsVal ds, s.drop ds.length)

/-- Consume an expected literal. -/
def expectLit (lit : PyStr) (s : PyStr) : Option PyStr :=
  if lit.isPrefixOf s then some (s.drop lit.length) else none

/-- strptime with format "%d/%m - %Y". -/
def parseFmtDmSpY (s : PyStr) : Option PyDateTime := do
  let (d, r1) ← parseNumUpTo 2 s
  let r2 ← expectLit [47] r1
  let (m, r3) ← parseNumUpTo 2 r2
  let r4 ← expectLit [32, 45, 32] r3
  let (y, r5) ← parseNumUpTo 4 r4
  if r5 = [] ∧ validDate y m d then some ⟨y, m, d⟩ else none

/-- strptime with format "%Y-%m-%d". -/
def parseFmtYmd (s : PyStr) : Option PyDateTime := do
  let (y, r1) ← parseNumUpTo 4 s
  let r2 ← expectLit [45] r1
  let (m, r3) ← parseNumUpTo 2 r2
  let r4 ← expectLit [45] r3
  let (d, r5) ← parseNumUpTo 2 r4
  if r5 = [] ∧ validDate y m d then some ⟨y, m, d⟩ else none

/-- strptime with format "%d-%m-%Y". -/
def parseFmtDmy (s : PyStr) : Option PyDateTime := do
  let (d, r1) ← parseNumUpTo 2 s
  let r2 ← expectLit [45] r1
  let (m, r3) ← parseNumUpTo 2 r2
  let r4 ← expectLit [45] r3
  let (y, r5) ← parseNumUpTo 4 r4
  if r5 = [] ∧ validDate y m d then some ⟨y, m, d⟩ else none

/-- CVRAdapter._parse_date: try the three historical formats in order. -/
def cvrParseDate (dateStr : Option PyStr) : Option PyDateTime :=
  match dateStr with
  | none => none
  | some s =>
    if s = [] then none
    else
      match parseFmtDmSpY s with
      | some dt => some dt
      | none =>
        match parseFmtYmd s with
        | some dt => some dt
        | none => parseFmtDmy s

-- ── adapters/gdelt.py : GDELTAdapter ─────────────────────────────────

/-- The fixed 20-entry CAMEO root-code to category mapping (gdelt.py CAMEO_CATEGORY_MAP),
keys and values as codepoint lists. -/
def cameoCategoryMap : List (PyStr × PyStr) := [
  ([48, 49], [112, 117, 98, 108, 105, 99, 95, 115, 116, 97, 116, 101, 109, 101, 110, 116]),
  ([48, 50], [97, 112, 112, 101, 97, 108]),
  ([48, 51], [99, 111, 111, 112, 101, 114, 97, 116, 105, 111, 110]),
  ([48, 52], [99, 111, 110, 115, 117, 108, 116, 97, 116, 105, 111, 110]),
  ([48, 53], [100, 105, 112, 108, 111, 109, 97, 99, 121]),
  ([48, 54], [109, 97, 116, 101, 114, 105, 97, 108, 95, 99, 111, 111, 112, 101, 114, 97, 116, 105, 111, 110]),
  ([48, 55], [97, 105, 100]),
  ([48, 56], [99, 111, 110, 99, 101, 115, 115, 105, 111, 110]),
  ([48, 57], [105, 110, 118, 101, 115, 116, 105, 103, 97, 116, 105, 111, 110]),
  ([49, 48], [100, 101, 109, 97, 110, 100]),
  ([49, 49], [100, 105, 115, 97, 112, 112, 114, 111, 118, 97, 108]),
  ([49, 50], [114, 101, 106, 101, 99, 116, 105, 111, 110]),
  ([49, 51], [116, 104, 114, 101, 97, 116]),
  ([49, 52], [112, 114, 111, 116, 101, 115, 116]),
  ([49, 53], [102, 111, 114, 99, 101, 95, 112, 111, 115, 116, 117, 114, 101]),
  ([49, 54], [114, 101, 100, 117, 99, 101, 95, 114, 101, 108, 97, 116, 105, 111, 110, 115]),
  ([49, 55], [99, 111, 101, 114, 99, 105, 111, 110]),
  ([49, 56], [97, 115, 115, 97, 117, 108, 116]),
  ([49, 57], [102, 105, 103, 104, 116]),
  ([50, 48], [109, 97, 115, 115, 95, 118, 105, 111, 108, 101, 110, 99, 101])
]

/-- GDELTAdapter._safe_col: strip the column, empty on IndexError. -/
def safeCol (row : List PyStr) (idx : Nat) : PyStr := pyStrip (row.getD idx [])

/-- category.replace("_", " "). -/
def underscoresToSpaces (s : PyStr) : PyStr := s.map (fun c => if c = 95 then 32 else c)

/-- Lookup with default in a PyStr-keyed association list (dict.get). -/
def assocGetD (m : List (PyStr × PyStr)) (k : PyStr) (dflt : PyStr) : PyStr :=
  ((m.find? (fun p => p.1 == k)).map (fun p => p.2)).getD dflt

/-- The CAMEO category of a row: the root-code mapping with default
"unknown" (gdelt.py:171). -/
def gdeltCategory (row : List PyStr) : PyStr :=
  assocGetD cameoCategoryMap (safeCol row 26) sUnknown

/-- The title of a GDELT row: actor1 -- category -- actor2 over the
non-empty parts, falling back to "GDELT event {id}" when all are empty
(gdelt.py:174-175). -/
def gdeltTitle (row : List PyStr) : PyStr :=
  let titleParts :=
    [safeCol row 6, underscoresToSpaces (gdeltCategory row), safeCol row 16].filter
      (fun p => p ≠ [])
  let joined := pyJoin sepDashes titleParts
  if joined = [] then sGdeltEvent ++ safeCol row 0 else joined

/-- GDELTAdapter._row_to_raw_item: drop short rows and rows with an empty
event id, otherwise build the RawItem (gdelt.py:157-212; the metadata dict
is not modelled). -/
def gdeltRowToRawItem (row : List PyStr) : Option RawItem :=
  if row.length < 58 then none
  else if safeCol row 0 = [] then none
  else
    some
      { source_adapter := sgdelt
        external_id := gdeltExternalId (safeCol row 0)
        title := gdeltTitle row
        content := none
        summary := some (sCAMEOsp ++ safeCol row 27 ++ sColonSp ++ gdeltCategory row)
        authors := [safeCol row 6, safeCol row 16].filter (fun a => a ≠ [])
        published_at := parseGdeltDate (safeCol row 1)
        source_url := if safeCol row 57 = [] then none else some (safeCol row 57) }

/-- The network surface of GDELTAdapter.fetch: the lastupdate.txt GET (with
raise_for_status) and the zip download-and-decompress, either of which can
raise. -/
structure GdeltNet where
  lastupdate : Except Unit PyStr
  download : PyStr → Except Unit PyStr

/-- GDELTAdapter._get_latest_export_url: the third whitespace-separated field
of the first lastupdate.txt line whose URL ends with ".export.CSV.zip". -/
def findExportUrl (txt : PyStr) : Option PyStr :=
  (pySplitLines (pyStrip txt)).findSome? fun line =>
    let parts := pySplit line
    if 3 ≤ parts.length ∧ sExportSuffix.isSuffixOf (parts.getD 2 []) then
      some (parts.getD 2 [])
    else none

/-- csv.reader with tab delimiter on the decompressed export (GDELT rows
carry no csv quoting; a blank line is the row [""] here and the empty row in
csv, both below the 58-column bound). -/
def parseCsvTab (txt : PyStr) : List (List PyStr) :=
  (pySplitLines txt).map (pySplitChar 9)

/-- Body of GDELTAdapter.fetch before its catch-all handler: discover the
export URL, download, parse, convert and country-filter the rows. -/
def gdeltFetchBody (net : GdeltNet) (focusCountries : List PyStr) :
    Except Unit (List RawItem) := do
  let lastupdateTxt ← net.lastupdate
  match findExportUrl lastupdateTxt with
  | none => pure []
  | some url => do
    let csvText ← net.download url
    pure ((parseCsvTab csvText).filterMap fun row =>
      match gdeltRowToRawItem row with
      | none => none
      | some item =>
        let country1 := safeCol row 7
        let country2 := safeCol row 17
        if focusCountries ≠ [] ∧ ¬(country1 ∈ focusCountries ∨ country2 ∈ focusCountries)
        then none
        else some item)

/-- GDELTAdapter.fetch: the whole body runs under `except Exception: return
[]`, so every failure — network failures included — yields an empty list
instead of raising. -/
def gdeltFetch (net : GdeltNet) (focusCountries : List PyStr) : Except Unit (List RawItem) :=
  match gdeltFetchBody net focusCountries with
  | .ok items => .ok items
  | .error _ => .ok []

-- ── adapters/rss.py : RSSAdapter ─────────────────────────────────────

/-- An element of a feedparser entry content list. -/
structure FeedContentItem where
  value : Option PyStr
deriving DecidableEq, Repr

/-- A feedparser entry, with the keys _entry_to_raw_item reads (the `tags`
key feeds only the unmodelled metadata dict). -/
structure FeedEntry where
  title : Option PyStr
  link : Option PyStr
  summary : Option PyStr
  description : Option PyStr
  content : Option (List FeedContentItem)
  author : Option PyStr
  published_parsed : Option Nat
  updated_parsed : Option Nat
  published : Option PyStr
  updated : Option PyStr
deriving DecidableEq, Repr

/-- A feedparser result: the bozo flag and the entry list. -/
structure Feed where
  bozo : Bool
  entries : List FeedEntry
deriving DecidableEq, Repr

/-- The external collaborators of RSSAdapter: feedparser.parse (which also
performs the HTTP fetch, and whose in-body exceptions surface as the
error case), BeautifulSoup's get_text, and the two datetime conversions
(struct_time handles are opaque naturals; conversion failures are `none`). -/
structure RssEnv where
  parse : PyStr → Except Unit Feed
  getText : PyStr → PyStr
  mkTime : Nat → Option PyDateTime
  parseDate2822 : PyStr → Option PyDateTime

/-- RSSAdapter._strip_html: empty in, empty out; otherwise get_text followed
by whitespace collapse. -/
def stripHtml (env : RssEnv) (html : PyStr) : PyStr :=
  if html = [] then [] else pyJoin [32] (pySplit (env.getText html))

/-- RSSAdapter._parse_date: structured published/updated times first, then
the free-form strings; failures fall through to the next source. -/
def rssParseDate (env : RssEnv) (e : FeedEntry) : Option PyDateTime :=
  [match e.published_parsed with
   | some st => env.mkTime st
   | none => none,
   match e.updated_parsed with
   | some st => env.mkTime st
   | none => none,
   match e.published with
   | some raw => if raw = [] then none else env.parseDate2822 raw
   | none => none,
   match e.updated with
   | some raw => if raw = [] then none else env.parseDate2822 raw
   | none => none].findSome? id

/-- Python `a or b or ""` over optional strings (None and "" are falsy). -/
def pyOrStr (a b : Option PyStr) : PyStr :=
  match a with
  | some s => if s ≠ [] then s else (b.getD [])
  | none => b.getD []

/-- RSSAdapter._entry_to_raw_item (the metadata dict is not modelled).  Note
that the title defaults to the empty string when the entry has none. -/
def rssEntryToRawItem (env : RssEnv) (entry : FeedEntry) (feedUrl : PyStr) : RawItem :=
  let title := entry.title.getD []
  let link := entry.link.getD feedUrl
  let rawSummary := pyOrStr entry.summary entry.description
  let content :=
    match entry.content with
    | some (ci :: _) => some (stripHtml env (ci.value.getD []))
    | _ => none
  let author := entry.author.getD []
  let authors :=
    if author = [] then []
    else ((pySplitChar 44 author).map pyStrip).filter (fun a => a ≠ [])
  { source_adapter := srss
    external_id := rssExternalId link
    title := title
    content := content
    summary := some (stripHtml env rawSummary)
    authors := authors
    published_at := rssParseDate env entry
    source_url := some link }

/-- RSSAdapter._parse_feed: a malformed feed with no entries yields an empty
list; otherwise one RawItem per entry. -/
def rssParseFeed (env : RssEnv) (url : PyStr) : Except Unit (List RawItem) := do
  let feed ← env.parse url
  if feed.bozo ∧ feed.entries = [] then pure []
  else pure (feed.entries.map (fun e => rssEntryToRawItem env e url))

/-- RSSAdapter.fetch: per-URL errors are swallowed (losing that URL's items
only), so fetch itself never raises. -/
def rssFetch (env : RssEnv) (feedUrls : List PyStr) : Except Unit (List RawItem) :=
  if feedUrls = [] then .ok []
  else
    .ok (feedUrls.foldl
      (fun items url =>
        match rssParseFeed env url with
        | .ok feedItems => items ++ feedItems
        | .error _ => items)
      [])

-- ── adapters/cvr.py : CVRAdapter ─────────────────────────────────────

/-- An element of the owners list of a CVR response. -/
structure CvrOwner where
  name : Option PyStr
deriving DecidableEq, Repr

/-- A CVR API JSON response, with the keys _response_to_raw_item reads into
the RawItem proper (`vat` is pre-stringified, as by `str(...)`; keys feeding
only the unmodelled metadata dict are left out). -/
structure CvrResponse where
  vat : Option PyStr
  name : Option PyStr
  owners : Option (List CvrOwner)
  industrydesc : Option PyStr
  startdate : Option PyStr
deriving Repr

/-- The stripped registration number of a CVR response (cvr.py:79). -/
def cvrNumberOf (data : CvrResponse) : PyStr := pyStrip (data.vat.getD [])

/-- The stripped company name of a CVR response (cvr.py:80). -/
def cvrCompanyName (data : CvrResponse) : PyStr := pyStrip (data.name.getD [])

/-- The title of a CVR RawItem: "{name} (CVR: {number})" when a registration
number is present, the bare company name otherwise (cvr.py:104). -/
def cvrTitle (data : CvrResponse) : PyStr :=
  if cvrNumberOf data ≠ [] then
    cvrCompanyName data ++ sCvrOpen ++ cvrNumberOf data ++ sParenClose
  else cvrCompanyName data

/-- CVRAdapter._response_to_raw_item: empty registration number and company
name yield nothing; otherwise build the RawItem (cvr.py:78-133). -/
def cvrResponseToRawItem (data : CvrResponse) : Option RawItem :=
  if cvrNumberOf data = [] ∧ cvrCompanyName data = [] then none
  else
    some
      { source_adapter := scvr
        external_id := cvrExternalId (cvrNumberOf data)
        title := cvrTitle data
        content := none
        summary := some (sDanishCompany ++ cvrCompanyName data ++ sDotIndustry ++
          (data.industrydesc.getD []) ++ sDot)
        authors :=
          (data.owners.getD []).filterMap fun o =>
            match o.name with
            | some n => if n = [] then none else some n
            | none => none
        published_at := cvrParseDate data.startdate
        source_url :=
          if cvrNumberOf data ≠ [] then some (sCvrUrlBase ++ cvrNumberOf data) else none }

/-- CVRAdapter.fetch with the per-term HTTP query (raise_for_status and JSON
decoding included) as an oracle: per-term errors are swallowed, so fetch
itself never raises. -/
def cvrFetch (query : PyStr → Except Unit CvrResponse) (searchTerms : List PyStr) :
    Except Unit (List RawItem) :=
  if searchTerms = [] then .ok []
  else
    .ok (searchTerms.foldl
      (fun items term =>
        match query term with
        | .ok data =>
          match cvrResponseToRawItem data with
          | some item => items ++ [item]
          | none => items
        | .error _ => items)
      [])


-- ── Observations and concrete inputs used by the verification ───────

/-- Processed flag of the row with a given id (the observation used to state
what the sweep did to the store). -/
def rowStatus (db : List RowRec) (itemId : Nat) : Option Bool :=
  (db.find? (fun r => r.id == itemId)).map (fun r => r.processed)

/-- A spaCy entity span whose label is ORG, for the C5 counterexample. -/
def c5Nlp : PyStr → List SpacyEnt := fun _ => [⟨[65, 99, 109, 101], sORG, 0, 4⟩]

/-- Two mentions of the same person differing in case only, for the C8
witness. -/
def c8Input : List ExtractedEntity :=
  [⟨[65, 108, 105, 99, 101], sperson, 0, 5⟩, ⟨[97, 108, 105, 99, 101], sperson, 10, 15⟩]

/-- Sum of the occurrence counters of a result list. -/
def sumOcc (l : List NormalisedEntity) : Nat := (l.map NormalisedEntity.occurrences).sum

/-- Value of a hex digit codepoint. -/
def hexVal (c : Nat) : Nat :=
  if 48 ≤ c ∧ c ≤ 57 then c - 48
  else if 97 ≤ c ∧ c ≤ 102 then c - 87
  else 0

/-- Positional value of a hex string. -/
def hexNum : PyStr → Nat
  | [] => 0
  | c :: rest => hexVal c * 16 ^ rest.length + hexNum rest

/-- The pairwise-distinctness property of claim C4, oriented as the code
compares: the later entry's name against the earlier entry's name. -/
def simBelow (θ : Rat) (a b : NormalisedEntity) : Prop :=
  b.type = a.type → similarity b.name a.name < θ

instance (θ : Rat) (a b : NormalisedEntity) : Decidable (simBelow θ a b) := by
  unfold simBelow
  infer_instance

/-- The input of the C4 counterexample: "abcdefgh", "cdefghij" (below the
threshold from the first, so kept separate), then "abcdefghij", which merges
into the first entry and, being longer, is adopted as its name — landing
within the threshold of the second entry. -/
def c4Input : List ExtractedEntity :=
  [⟨[97, 98, 99, 100, 101, 102, 103, 104], sorg, 0, 8⟩,
   ⟨[99, 100, 101, 102, 103, 104, 105, 106], sorg, 9, 17⟩,
   ⟨[97, 98, 99, 100, 101, 102, 103, 104, 105, 106], sorg, 18, 28⟩]

/-- A feed whose single entry carries no title, for the C9 counterexample. -/
def c9Entry : FeedEntry :=
  { title := none, link := some [104], summary := none, description := none,
    content := none, author := none, published_parsed := none, updated_parsed := none,
    published := none, updated := none }

/-- An RSS environment with inert collaborators, for the C9 counterexample. -/
def c9Env : RssEnv :=
  { parse := fun _ => Except.ok { bozo := false, entries := [c9Entry] },
    getText := fun s => s, mkTime := fun _ => none, parseDate2822 := fun _ => none }

-- ═══════════════════════════════════════════════════════════════════
-- Shared lemmas
-- ═══════════════════════════════════════════════════════════════════

theorem nodup_map_inj {α β : Type} (f : α → β) :
    ∀ l : List α, (l.map f).Nodup → ∀ a ∈ l, ∀ b ∈ l, f a = f b → a = b := by
  intro l
  induction l with
  | nil => intro _ a ha; simp at ha
  | cons x xs ih =>
    intro hnd a ha b hb hfab
    simp only [List.map_cons, List.nodup_cons] at hnd
    rcases List.mem_cons.mp ha with rfl | ha2
    · rcases List.mem_cons.mp hb with rfl | hb2
      · rfl
      · exact absurd (hfab ▸ List.mem_map_of_mem f hb2) hnd.1
    · rcases List.mem_cons.mp hb with rfl | hb2
      · exact absurd (hfab ▸ List.mem_map_of_mem f ha2) hnd.1
      · exact ih hnd.2 a ha2 b hb2 hfab

theorem count_eq_one_of_nodup_mem {a : Nat} :
    ∀ {l : List Nat}, l.Nodup → a ∈ l → l.count a = 1 := by
  intro l
  induction l with
  | nil => intro _ h; simp at h
  | cons x xs ih =>
    intro hnd hmem
    simp only [List.nodup_cons] at hnd
    rcases List.mem_cons.mp hmem with rfl | h2
    · rw [List.count_cons_self, List.count_eq_zero.mpr hnd.1]
    · rw [List.count_cons_of_ne, ih hnd.2 h2]
      intro heq
      exact hnd.1 (heq ▸ h2)

-- ═══════════════════════════════════════════════════════════════════
-- Claim C1 — adapter fetch and network failures
-- ═══════════════════════════════════════════════════════════════════

/-- Claim C1, as stated, is false on the code: with the lastupdate request
failing (a network-level failure), GDELTAdapter.fetch catches the exception
and returns ok [] — an empty list indistinguishable from a successful empty
fetch — instead of raising to the caller. -/
theorem C1_counterexample :
    gdeltFetch ⟨Except.error (), fun _ => Except.error ()⟩ [] = Except.ok [] ∧
    (Except.ok ([] : List RawItem) ≠ Except.error ()) :=
  ⟨rfl, fun h => Except.noConfusion h⟩

/-- C1 amended: no adapter's fetch ever raises.  GDELT swallows every
failure of its own body, a network-level failure included, and returns an
empty list; RSS and CVR swallow errors per feed URL / per search term and
return whatever the remaining iterations produced. -/
theorem C1_amended_fetch_never_raises :
    (∀ (net : GdeltNet) (fc : List PyStr), ∃ items, gdeltFetch net fc = Except.ok items) ∧
    (∀ (env : RssEnv) (urls : List PyStr), ∃ items, rssFetch env urls = Except.ok items) ∧
    (∀ (query : PyStr → Except Unit CvrResponse) (terms : List PyStr),
      ∃ items, cvrFetch query terms = Except.ok items) := by
  refine ⟨fun net fc => ?_, fun env urls => ?_, fun query terms => ?_⟩
  · unfold gdeltFetch
    cases gdeltFetchBody net fc with
    | ok items => exact ⟨items, rfl⟩
    | error e => exact ⟨[], rfl⟩
  · unfold rssFetch
    split
    · exact ⟨[], rfl⟩
    · exact ⟨_, rfl⟩
  · unfold cvrFetch
    split
    · exact ⟨[], rfl⟩
    · exact ⟨_, rfl⟩

-- ═══════════════════════════════════════════════════════════════════
-- Claim C2 — the processing sweep
-- ═══════════════════════════════════════════════════════════════════

theorem rowStatus_cons (r : RowRec) (rest : List RowRec) (j : Nat) :
    rowStatus (r :: rest) j = if r.id = j then some r.processed else rowStatus rest j := by
  unfold rowStatus
  by_cases h : r.id = j
  · rw [List.find?_cons_of_pos _ (by simp [h]), if_pos h]
    rfl
  · rw [List.find?_cons_of_neg _ (by simp [h]), if_neg h]

theorem rowStatus_mark_ne (db : List RowRec) (i j : Nat) (hij : i ≠ j) :
    rowStatus (markProcessed db i) j = rowStatus db j := by
  induction db with
  | nil => rfl
  | cons r rest ih =>
    have hmp : markProcessed (r :: rest) i =
        (if r.id = i then { r with processed := true } else r) :: markProcessed rest i := rfl
    have hhd : (if r.id = i then { r with processed := true } else r).id = r.id := by
      split <;> rfl
    rw [hmp, rowStatus_cons, rowStatus_cons, hhd]
    by_cases hrj : r.id = j
    · have hri : ¬ r.id = i := fun h => hij (h.symm.trans hrj)
      rw [if_pos hrj, if_pos hrj, if_neg hri]
    · rw [if_neg hrj, if_neg hrj, ih]

theorem rowStatus_mark_self (db : List RowRec) (i : Nat) :
    rowStatus (markProcessed db i) i = (rowStatus db i).map (fun _ => true) := by
  induction db with
  | nil => rfl
  | cons r rest ih =>
    have hmp : markProcessed (r :: rest) i =
        (if r.id = i then { r with processed := true } else r) :: markProcessed rest i := rfl
    have hhd : (if r.id = i then { r with processed := true } else r).id = r.id := by
      split <;> rfl
    rw [hmp, rowStatus_cons, rowStatus_cons, hhd]
    by_cases hri : r.id = i
    · rw [if_pos hri, if_pos hri]
      simp [hri]
    · rw [if_neg hri, if_neg hri, ih]

theorem find?_of_nodup_mem (db : List RowRec) (r : RowRec)
    (hnd : (db.map RowRec.id).Nodup) (hmem : r ∈ db) :
    db.find? (fun x => x.id == r.id) = some r := by
  induction db with
  | nil => simp at hmem
  | cons d rest ih =>
    simp only [List.map_cons, List.nodup_cons] at hnd
    by_cases hdi : d.id = r.id
    · have hdr : d = r := by
        rcases List.mem_cons.mp hmem with rfl | h2
        · rfl
        · exact absurd (hdi ▸ List.mem_map_of_mem RowRec.id h2) hnd.1
      rw [List.find?_cons_of_pos _ (by simp [hdi]), hdr]
    · have hr2 : r ∈ rest := by
        rcases List.mem_cons.mp hmem with rfl | h2
        · exact absurd rfl hdi
        · exact h2
      rw [List.find?_cons_of_neg _ (by simp [hdi])]
      exact ih hnd.2 hr2

/-- The sweep loop in closed form: counts, final store, and mark calls. -/
theorem sweepGo_eq (ok : Nat → Bool) :
    ∀ (rows : List RowRec) (p e : Nat) (db : List RowRec) (calls : List Nat),
      sweepGo ok rows (p, e, db, calls) =
        (p + (rows.filter (fun r => ok r.id)).length,
         e + (rows.filter (fun r => !ok r.id)).length,
         rows.foldl (fun d r => if ok r.id then markProcessed d r.id else d) db,
         calls ++ (rows.filter (fun r => ok r.id)).map RowRec.id) := by
  intro rows
  induction rows with
  | nil => intro p e db calls; simp [sweepGo]
  | cons r rest ih =>
    intro p e db calls
    cases hok : ok r.id with
    | true =>
      rw [show sweepGo ok (r :: rest) (p, e, db, calls) =
            sweepGo ok rest (p + 1, e, markProcessed db r.id, calls ++ [r.id]) from by
          simp [sweepGo, hok]]
      rw [ih]
      simp [List.filter_cons, hok]
      omega
    | false =>
      rw [show sweepGo ok (r :: rest) (p, e, db, calls) =
            sweepGo ok rest (p, e + 1, db, calls) from by simp [sweepGo, hok]]
      rw [ih]
      simp [List.filter_cons, hok]
      omega

theorem sweepDb_status (ok : Nat → Bool) :
    ∀ (rows : List RowRec) (db : List RowRec) (j : Nat),
      rowStatus (rows.foldl (fun d r => if ok r.id then markProcessed d r.id else d) db) j =
        if rows.any (fun r => ok r.id && r.id == j) then (rowStatus db j).map (fun _ => true)
        else rowStatus db j := by
  intro rows
  induction rows with
  | nil => intro db j; simp
  | cons r rest ih =>
    intro db j
    cases hok : ok r.id with
    | false => simp [List.foldl_cons, hok, ih]
    | true =>
      have hstep : (r :: rest).foldl (fun d x => if ok x.id then markProcessed d x.id else d) db =
          rest.foldl (fun d x => if ok x.id then markProcessed d x.id else d)
            (markProcessed db r.id) := by
        simp [List.foldl_cons, hok]
      rw [hstep, ih]
      by_cases hid : r.id = j
      · have hany : ((r :: rest).any (fun x => ok x.id && x.id == j)) = true := by
          simp only [List.any_cons, Bool.or_eq_true, Bool.and_eq_true, beq_iff_eq]
          exact Or.inl ⟨hok, hid⟩
        rw [hany, if_pos rfl, hid, rowStatus_mark_self]
        by_cases hr2 : rest.any (fun x => ok x.id && x.id == j) = true
        · rw [if_pos hr2]
          cases rowStatus db j <;> rfl
        · rw [if_neg hr2]
      · rw [rowStatus_mark_ne db r.id j hid]
        have hhead : (ok r.id && (r.id == j)) = false := by simp [hid]
        simp [List.any_cons, hhead]

/-- Claim C2, as stated, is false on the code in one respect: the record
returned by a sweep with an empty batch is `{"processed": 0}` with no errors
key, not the two-key record `{processed, errors}`. -/
theorem C2_counterexample :
    (processRawItems (fun _ => true) 200 []).1.errors = none ∧
    (processRawItems (fun _ => true) 200 []).1 = { processed := 0, errors := none } :=
  ⟨rfl, rfl⟩

/-- C2 amended: in a sweep over a store with distinct row ids, a batch row
whose pipeline raised receives no mark_processed call and its processed flag
stays false; a batch row whose pipeline succeeded receives exactly one
mark_processed call and its flag becomes true; and the sweep returns
`{processed, errors}` counting each kind whenever the batch is non-empty (an
empty batch returns `{processed: 0}` with no errors field). -/
theorem C2_amended (ok : Nat → Bool) (batchSize : Nat) (db : List RowRec)
    (hids : (db.map RowRec.id).Nodup) :
    (∀ r ∈ loadUnprocessed db batchSize,
      (ok r.id = false →
        ((processRawItems ok batchSize db).2.2.count r.id = 0 ∧
         rowStatus (processRawItems ok batchSize db).2.1 r.id = some false)) ∧
      (ok r.id = true →
        ((processRawItems ok batchSize db).2.2.count r.id = 1 ∧
         rowStatus (processRawItems ok batchSize db).2.1 r.id = some true))) ∧
    (loadUnprocessed db batchSize ≠ [] →
      (processRawItems ok batchSize db).1 =
        { processed := ((loadUnprocessed db batchSize).filter (fun r => ok r.id)).length,
          errors := some (((loadUnprocessed db batchSize).filter (fun r => !ok r.id)).length) }) := by
  by_cases hem : loadUnprocessed db batchSize = []
  · refine ⟨fun r hr => ?_, fun hne => absurd hem hne⟩
    rw [hem] at hr
    exact absurd hr (List.not_mem_nil r)
  · have hlist : ¬ (loadUnprocessed db batchSize).isEmpty = true := by
      simpa [List.isEmpty_iff] using hem
    have hPR : processRawItems ok batchSize db =
        ({ processed := ((loadUnprocessed db batchSize).filter (fun r => ok r.id)).length,
           errors := some (((loadUnprocessed db batchSize).filter (fun r => !ok r.id)).length) },
         (loadUnprocessed db batchSize).foldl
           (fun d r => if ok r.id then markProcessed d r.id else d) db,
         ((loadUnprocessed db batchSize).filter (fun r => ok r.id)).map RowRec.id) := by
      unfold processRawItems
      rw [if_neg hlist, sweepGo_eq]
      simp
    have hsub : List.Sublist (loadUnprocessed db batchSize) db :=
      (List.take_sublist _ _).trans (List.filter_sublist _)
    have hndrows : ((loadUnprocessed db batchSize).map RowRec.id).Nodup :=
      hids.sublist (hsub.map _)
    refine ⟨fun r hr => ?_, fun _ => by rw [hPR]⟩
    have hrdb : r ∈ db := hsub.subset hr
    have hrunp : r.processed = false := by
      have hmf : r ∈ db.filter (fun x => !x.processed) := (List.take_sublist _ _).subset hr
      have := (List.mem_filter.mp hmf).2
      simpa using this
    constructor
    · intro hok
      constructor
      · rw [hPR]
        simp only
        rw [List.count_eq_zero]
        intro hmem
        obtain ⟨r2, hr2f, hr2id⟩ := List.mem_map.mp hmem
        have hr2rows : r2 ∈ loadUnprocessed db batchSize := (List.mem_filter.mp hr2f).1
        have hr2ok : ok r2.id = true := by simpa using (List.mem_filter.mp hr2f).2
        have hr2r : r2 = r := nodup_map_inj RowRec.id _ hndrows r2 hr2rows r hr hr2id
        rw [hr2r, hok] at hr2ok
        exact Bool.noConfusion hr2ok
      · rw [hPR]
        simp only
        rw [sweepDb_status]
        have hanyf : ((loadUnprocessed db batchSize).any (fun x => ok x.id && x.id == r.id))
            = false := by
          rw [← Bool.not_eq_true, List.any_eq_true]
          rintro ⟨x, hx, hpx⟩
          simp only [Bool.and_eq_true, beq_iff_eq] at hpx
          have : x = r := nodup_map_inj RowRec.id _ hndrows x hx r hr hpx.2
          rw [this, hok] at hpx
          exact Bool.noConfusion hpx.1
        rw [if_neg (by simp [hanyf])]
        unfold rowStatus
        rw [find?_of_nodup_mem db r hids hrdb]
        simp [hrunp]
    · intro hok
      constructor
      · rw [hPR]
        simp only
        apply count_eq_one_of_nodup_mem
        · exact hndrows.sublist ((List.filter_sublist _).map _)
        · exact List.mem_map_of_mem _ (List.mem_filter.mpr ⟨hr, by simp [hok]⟩)
      · rw [hPR]
        simp only
        rw [sweepDb_status]
        have hanyt : ((loadUnprocessed db batchSize).any (fun x => ok x.id && x.id == r.id))
            = true := by
          rw [List.any_eq_true]
          exact ⟨r, hr, by simp [hok]⟩
        rw [if_pos hanyt]
        unfold rowStatus
        rw [find?_of_nodup_mem db r hids hrdb]
        simp

/-- Witness for C2_amended: spec scenario 6 — three rows, the pipeline raises
on row 2; rows 1 and 3 are marked, row 2 stays unprocessed, and the sweep
reports {processed: 2, errors: 1}. -/
theorem C2_amended_witness :
    rowStatus (processRawItems (fun n => !(n == 2)) 200
      [⟨1, false⟩, ⟨2, false⟩, ⟨3, false⟩]).2.1 2 = some false ∧
    (processRawItems (fun n => !(n == 2)) 200 [⟨1, false⟩, ⟨2, false⟩, ⟨3, false⟩]).1 =
      { processed := 2, errors := some 1 } := by
  have h := C2_amended (fun n => !(n == 2)) 200 [⟨1, false⟩, ⟨2, false⟩, ⟨3, false⟩] (by decide)
  refine ⟨((h.1 ⟨2, false⟩ (by decide)).1 (by decide)).2, ?_⟩
  rw [h.2 (by decide)]
  rfl

-- ═══════════════════════════════════════════════════════════════════
-- Claim C5 — entity kinds emitted by the tagger wrapper
-- ═══════════════════════════════════════════════════════════════════

theorem spacyLabelMap_mem (lab t : PyStr) (h : spacyLabelMap lab = some t) :
    t ∈ [sperson, sorg, slocation] := by
  unfold spacyLabelMap at h
  split_ifs at h <;> simp_all

theorem extractorDedupGo_subset :
    ∀ (l : List ExtractedEntity) (seen : List (PyStr × PyStr)),
      ∀ e ∈ extractorDedupGo l seen, e ∈ l := by
  intro l
  induction l with
  | nil => intro seen e he; simp [extractorDedupGo] at he
  | cons x xs ih =>
    intro seen e he
    unfold extractorDedupGo at he
    by_cases hk : dedupKey x ∈ seen
    · rw [if_pos hk] at he
      exact List.mem_cons_of_mem x (ih _ e he)
    · rw [if_neg hk] at he
      rcases List.mem_cons.mp he with rfl | h2
      · exact List.mem_cons_self e xs
      · exact List.mem_cons_of_mem x (ih _ e h2)

/-- Claim C5, as stated, is false on the code: the extractor maps the spaCy
ORG label to the type "org", not "organization", so the emitted kind is not
drawn from {person, organization, location}. -/
theorem C5_counterexample :
    (extractEntities c5Nlp [65]).map ExtractedEntity.type = [sorg] ∧
    sorg ∉ [sperson, sorganization, slocation] :=
  ⟨by decide, by decide⟩

/-- C5 amended: every extracted entity's kind is drawn exactly from
{"person", "org", "location"} (the "org" spelling, mapped to the
Organization node label downstream), and spans with any other tagger label
are dropped before deduplication. -/
theorem C5_amended :
    (∀ (nlp : PyStr → List SpacyEnt) (text : PyStr) (e : ExtractedEntity),
      e ∈ extractEntities nlp text → e.type ∈ [sperson, sorg, slocation]) ∧
    (∀ ents : List SpacyEnt,
      rawEntitiesOf (ents.filter (fun se => (spacyLabelMap se.label).isSome)) =
        rawEntitiesOf ents) := by
  constructor
  · intro nlp text e he
    unfold extractEntities at he
    split at he
    · exact absurd he (List.not_mem_nil e)
    · have hraw : e ∈ rawEntitiesOf (nlp text) := extractorDedupGo_subset _ [] e he
      obtain ⟨se, hse, hmap⟩ := List.mem_filterMap.mp hraw
      obtain ⟨ty, hty, hrec⟩ := Option.map_eq_some'.mp hmap
      have : e.type = ty := by rw [← hrec]
      rw [this]
      exact spacyLabelMap_mem se.label ty hty
  · intro ents
    induction ents with
    | nil => rfl
    | cons se rest ih =>
      cases hm : spacyLabelMap se.label with
      | none =>
        have : (spacyLabelMap se.label).isSome = false := by rw [hm]; rfl
        simp only [rawEntitiesOf, List.filter_cons, this, List.filterMap_cons, hm]
        simpa [rawEntitiesOf] using ih
      | some ty =>
        have hsome : (spacyLabelMap se.label).isSome = true := by rw [hm]; rfl
        simp only [rawEntitiesOf] at ih ⊢
        rw [List.filter_cons]
        rw [if_pos hsome]
        simp only [List.filterMap_cons, hm, Option.map_some']
        rw [ih]

/-- Witness for C5_amended at a concrete tagger output. -/
theorem C5_amended_witness :
    ((⟨[65, 99, 109, 101], sorg, 0, 4⟩ : ExtractedEntity) ∈ extractEntities c5Nlp [65]) ∧
    (⟨[65, 99, 109, 101], sorg, 0, 4⟩ : ExtractedEntity).type ∈ [sperson, sorg, slocation] :=
  ⟨by decide, C5_amended.1 c5Nlp [65] _ (by decide)⟩

-- ═══════════════════════════════════════════════════════════════════
-- Claim C8 — first-level deduplication inside the extractor
-- ═══════════════════════════════════════════════════════════════════

theorem extractorDedupGo_keys :
    ∀ (l : List ExtractedEntity) (seen : List (PyStr × PyStr)),
      List.Pairwise (fun a b => dedupKey a ≠ dedupKey b) (extractorDedupGo l seen) ∧
      ∀ e ∈ extractorDedupGo l seen, dedupKey e ∉ seen := by
  intro l
  induction l with
  | nil => intro seen; simp [extractorDedupGo]
  | cons x xs ih =>
    intro seen
    unfold extractorDedupGo
    by_cases hk : dedupKey x ∈ seen
    · rw [if_pos hk]
      exact ih seen
    · rw [if_neg hk]
      obtain ⟨ihp, ihs⟩ := ih (seen ++ [dedupKey x])
      constructor
      · rw [List.pairwise_cons]
        refine ⟨fun e he heq => ?_, ihp⟩
        exact (ihs e he) (heq ▸ List.mem_append_right seen (List.mem_singleton.mpr rfl))
      · intro e he
        rcases List.mem_cons.mp he with rfl | h2
        · exact hk
        · intro hmem
          exact (ihs e h2) (List.mem_append_left _ hmem)

theorem extractorDedupGo_first :
    ∀ (l : List ExtractedEntity) (seen : List (PyStr × PyStr)) (e : ExtractedEntity),
      e ∈ extractorDedupGo l seen →
      ∃ pre post, l = pre ++ e :: post ∧
        ∀ x ∈ pre, dedupKey x ∈ seen ∨ dedupKey x ≠ dedupKey e := by
  intro l
  induction l with
  | nil => intro seen e he; simp [extractorDedupGo] at he
  | cons x xs ih =>
    intro seen e he
    unfold extractorDedupGo at he
    by_cases hk : dedupKey x ∈ seen
    · rw [if_pos hk] at he
      obtain ⟨pre, post, heq, hpre⟩ := ih seen e he
      exact ⟨x :: pre, post, by rw [heq]; rfl,
        fun y hy => by
          rcases List.mem_cons.mp hy with rfl | h2
          · exact Or.inl hk
          · exact hpre y h2⟩
    · rw [if_neg hk] at he
      rcases List.mem_cons.mp he with rfl | h2
      · exact ⟨[], xs, rfl, fun y hy => absurd hy (List.not_mem_nil y)⟩
      · obtain ⟨pre, post, heq, hpre⟩ := ih (seen ++ [dedupKey x]) e h2
        have hknot : dedupKey e ∉ seen ++ [dedupKey x] :=
          (extractorDedupGo_keys xs (seen ++ [dedupKey x])).2 e h2
        refine ⟨x :: pre, post, by rw [heq]; rfl, fun y hy => ?_⟩
        rcases List.mem_cons.mp hy with rfl | h3
        · refine Or.inr (fun heq2 => hknot ?_)
          exact heq2 ▸ List.mem_append_right seen (List.mem_singleton.mpr rfl)
        · rcases hpre y h3 with hs | hne
          · rcases List.mem_append.mp hs with hs1 | hs2
            · exact Or.inl hs1
            · refine Or.inr (fun heq2 => hknot ?_)
              rw [List.mem_singleton.mp hs2] at heq2
              exact heq2 ▸ List.mem_append_right seen (List.mem_singleton.mpr rfl)
          · exact Or.inr hne

/-- Claim C8 is confirmed: the extractor's deduplicated output has no two
entities agreeing on (lowercased name, kind), and each surviving entity is
the first input occurrence of its key, spans included. -/
theorem C8_tagger_dedup (entities : List ExtractedEntity) :
    List.Pairwise (fun a b => ¬(pyLower a.name = pyLower b.name ∧ a.type = b.type))
      (extractorDeduplicate entities) ∧
    ∀ e ∈ extractorDeduplicate entities,
      ∃ pre post, entities = pre ++ e :: post ∧ ∀ x ∈ pre, dedupKey x ≠ dedupKey e := by
  constructor
  · refine ((extractorDedupGo_keys entities []).1).imp ?_
    intro a b hne hand
    apply hne
    unfold dedupKey
    rw [hand.1, hand.2]
  · intro e he
    obtain ⟨pre, post, heq, hpre⟩ := extractorDedupGo_first entities [] e he
    refine ⟨pre, post, heq, fun x hx => ?_⟩
    rcases hpre x hx with hs | hne
    · exact absurd hs (List.not_mem_nil _)
    · exact hne

/-- Witness for C8_tagger_dedup: the surviving entity is the first
occurrence. -/
theorem C8_tagger_dedup_witness :
    ∃ pre post,
      c8Input = pre ++ (⟨[65, 108, 105, 99, 101], sperson, 0, 5⟩ : ExtractedEntity) :: post ∧
      ∀ x ∈ pre, dedupKey x ≠ dedupKey ⟨[65, 108, 105, 99, 101], sperson, 0, 5⟩ :=
  (C8_tagger_dedup c8Input).2 _ (by decide)

-- ═══════════════════════════════════════════════════════════════════
-- Claim C10 — occurrence and span conservation in deduplicate_entities
-- ═══════════════════════════════════════════════════════════════════

theorem mergeEntity_occ (c : NormalisedEntity) (ent : ExtractedEntity) :
    (mergeEntity c ent).occurrences = c.occurrences + 1 := by
  simp only [mergeEntity]
  split <;> rfl

theorem mergeEntity_spans (c : NormalisedEntity) (ent : ExtractedEntity) :
    (mergeEntity c ent).source_spans = c.source_spans ++ [(ent.span_start, ent.span_end)] := by
  simp only [mergeEntity]
  split <;> rfl

theorem mergeEntity_type (c : NormalisedEntity) (ent : ExtractedEntity) :
    (mergeEntity c ent).type = c.type := by
  simp only [mergeEntity]
  split <;> rfl

theorem findMatchGo_some_lt (θ : Rat) (n ty : PyStr) :
    ∀ (cands : List NormalisedEntity) (base i : Nat),
      findMatchGo θ n ty cands base = some i → base ≤ i ∧ i - base < cands.length := by
  intro cands
  induction cands with
  | nil => intro base i h; exact absurd h (by simp [findMatchGo])
  | cons c cs ih =>
    intro base i h
    unfold findMatchGo at h
    split at h
    · cases h
      simp
    · obtain ⟨h1, h2⟩ := ih (base + 1) i h
      constructor
      · omega
      · simp only [List.length_cons]
        omega

theorem findMatchGo_none_all (θ : Rat) (n ty : PyStr) :
    ∀ (cands : List NormalisedEntity) (base : Nat),
      findMatchGo θ n ty cands base = none →
      ∀ c ∈ cands, c.type = ty → similarityGe θ n c.name = false := by
  intro cands
  induction cands with
  | nil => intro base _ c hc; simp at hc
  | cons x xs ih =>
    intro base h c hc hty
    unfold findMatchGo at h
    split at h
    · exact absurd h (by simp)
    · rcases List.mem_cons.mp hc with rfl | h2
      · rename_i hcond
        rw [Bool.eq_false_iff]
        intro hsim
        exact hcond ⟨hty, hsim⟩
      · exact ih (base + 1) h c h2 hty

theorem sumOcc_listModify_merge (ent : ExtractedEntity) :
    ∀ (l : List NormalisedEntity) (i : Nat), i < l.length →
      sumOcc (listModify (fun c => mergeEntity c ent) i l) = sumOcc l + 1 := by
  intro l
  induction l with
  | nil => intro i h; simp at h
  | cons x xs ih =>
    intro i h
    cases i with
    | zero =>
      simp only [listModify, sumOcc, List.map_cons, List.sum_cons, mergeEntity_occ]
      omega
    | succ n =>
      simp only [listModify, sumOcc, List.map_cons, List.sum_cons]
      have := ih n (by simpa using h)
      simp only [sumOcc] at this
      omega

theorem mem_listModify (f : NormalisedEntity → NormalisedEntity) :
    ∀ (l : List NormalisedEntity) (i : Nat) (y : NormalisedEntity),
      y ∈ listModify f i l → y ∈ l ∨ (i < l.length ∧ y = f (l.getD i default)) := by
  intro l
  induction l with
  | nil => intro i y hy; simp [listModify] at hy
  | cons x xs ih =>
    intro i y hy
    cases i with
    | zero =>
      rcases List.mem_cons.mp hy with rfl | h2
      · exact Or.inr ⟨by simp, rfl⟩
      · exact Or.inl (List.mem_cons_of_mem x h2)
    | succ n =>
      rcases List.mem_cons.mp hy with rfl | h2
      · exact Or.inl (List.mem_cons_self y xs)
      · rcases ih n y h2 with h3 | ⟨h3, h4⟩
        · exact Or.inl (List.mem_cons_of_mem x h3)
        · exact Or.inr ⟨by simpa using h3, h4⟩

theorem getD_mem : ∀ (l : List NormalisedEntity) (i : Nat), i < l.length →
    l.getD i default ∈ l := by
  intro l
  induction l with
  | nil => intro i h; simp at h
  | cons x xs ih =>
    intro i h
    cases i with
    | zero => exact List.mem_cons_self x xs
    | succ n => exact List.mem_cons_of_mem x (ih n (by simpa using h))

theorem dedupGo_sum (θ : Rat) :
    ∀ (l : List ExtractedEntity) (acc : List NormalisedEntity),
      sumOcc (dedupGo θ l acc) = sumOcc acc + l.length := by
  intro l
  induction l with
  | nil => intro acc; simp [dedupGo]
  | cons ent rest ih =>
    intro acc
    cases hf : findMatch θ (normalizeName ent.name) ent.type acc with
    | some i =>
      have hlt : i < acc.length := by
        have := findMatchGo_some_lt θ (normalizeName ent.name) ent.type acc 0 i hf
        omega
      simp only [dedupGo, hf]
      rw [ih, sumOcc_listModify_merge ent acc i hlt]
      simp only [List.length_cons]
      omega
    | none =>
      simp only [dedupGo, hf]
      rw [ih]
      have : sumOcc (acc ++
          [{ name := normalizeName ent.name, type := ent.type, occurrences := 1,
             source_spans := [(ent.span_start, ent.span_end)] }]) = sumOcc acc + 1 := by
        simp [sumOcc]
      rw [this]
      simp only [List.length_cons]
      omega

theorem dedupGo_spans (θ : Rat) :
    ∀ (l : List ExtractedEntity) (acc : List NormalisedEntity),
      (∀ e ∈ acc, e.source_spans.length = e.occurrences) →
      ∀ e ∈ dedupGo θ l acc, e.source_spans.length = e.occurrences := by
  intro l
  induction l with
  | nil => intro acc hacc e he; exact hacc e he
  | cons ent rest ih =>
    intro acc hacc e he
    cases hf : findMatch θ (normalizeName ent.name) ent.type acc with
    | some i =>
      simp only [dedupGo, hf] at he
      refine ih _ ?_ e he
      intro y hy
      rcases mem_listModify _ acc i y hy with h2 | ⟨hlt, rfl⟩
      · exact hacc y h2
      · rw [mergeEntity_spans, mergeEntity_occ, List.length_append]
        have h5 := hacc _ (getD_mem acc i hlt)
        simp only [List.length_singleton]
        omega
    | none =>
      simp only [dedupGo, hf] at he
      refine ih _ ?_ e he
      intro y hy
      rcases List.mem_append.mp hy with h2 | h2
      · exact hacc y h2
      · rw [List.mem_singleton.mp h2]
        rfl

/-- Claim C10 is confirmed: deduplicate_entities conserves occurrences (they
sum to the input length) and records exactly one span per occurrence. -/
theorem C10_occurrence_conservation (θ : Rat) (entities : List ExtractedEntity) :
    ((deduplicateEntities θ entities).map NormalisedEntity.occurrences).sum =
      entities.length ∧
    ∀ e ∈ deduplicateEntities θ entities, e.source_spans.length = e.occurrences := by
  constructor
  · have := dedupGo_sum θ entities []
    simpa [deduplicateEntities, sumOcc] using this
  · exact dedupGo_spans θ entities [] (fun e he => absurd he (List.not_mem_nil e))

/-- Witness for C10_occurrence_conservation on a concrete input. -/
theorem C10_witness :
    ((deduplicateEntities defaultThreshold [⟨[97], sorg, 0, 1⟩]).map
        NormalisedEntity.occurrences).sum = 1 ∧
    (⟨[65], sorg, 1, [(0, 1)]⟩ : NormalisedEntity).source_spans.length =
      (⟨[65], sorg, 1, [(0, 1)]⟩ : NormalisedEntity).occurrences := by
  have h := C10_occurrence_conservation defaultThreshold [⟨[97], sorg, 0, 1⟩]
  exact ⟨by simpa using h.1, h.2 _ (by decide)⟩


-- ═══════════════════════════════════════════════════════════════════
-- Claim C6 — geocoder cache behaviour
-- ═══════════════════════════════════════════════════════════════════

theorem lowerCh_ne_nil (c : Nat) : lowerCh c ≠ [] := by
  unfold lowerCh
  split_ifs <;> simp

theorem pyLower_eq_nil (s : PyStr) : pyLower s = [] ↔ s = [] := by
  constructor
  · intro h
    cases s with
    | nil => rfl
    | cons c rest =>
      exfalso
      simp only [pyLower, List.map_cons, List.flatten_cons, List.append_eq_nil] at h
      exact lowerCh_ne_nil c h.1
  · intro h
    rw [h]
    rfl

theorem cacheLookup_append_self (cache : List (PyStr × Option GeoResult)) (k : PyStr)
    (v : Option GeoResult) (h : cacheLookup cache k = none) :
    cacheLookup (cache ++ [(k, v)]) k = some v := by
  induction cache with
  | nil => simp [cacheLookup, List.find?]
  | cons p rest ih =>
    by_cases hp : p.1 = k
    · exfalso
      unfold cacheLookup at h
      rw [List.find?_cons_of_pos _ (by simp [hp])] at h
      exact Option.noConfusion h
    · unfold cacheLookup at h ⊢
      rw [List.cons_append, List.find?_cons_of_neg _ (by simp [hp])]
      rw [List.find?_cons_of_neg _ (by simp [hp])] at h
      exact ih h

theorem cacheLookup_tail_none (cache : List (PyStr × Option GeoResult)) (k : PyStr)
    (h : cacheLookup cache k = none) : cacheLookup cache.tail k = none := by
  cases cache with
  | nil => rfl
  | cons p rest =>
    unfold cacheLookup at h ⊢
    by_cases hp : p.1 = k
    · rw [List.find?_cons_of_pos _ (by simp [hp])] at h
      exact Option.noConfusion h
    · rw [List.find?_cons_of_neg _ (by simp [hp])] at h
      exact h

/-- Claim C6 is confirmed: after a geocode call completes, a second call with
any name that strips and lowercases to the same cache key returns the first
call's outcome — a negative outcome included — and leaves the state
untouched, so zero external requests are made. -/
theorem C6_geocode_second_call_cached (net : PyStr → Option GeoResult) (maxsize : Nat)
    (st : GeoState) (name1 name2 : PyStr) (hmax : 0 < maxsize)
    (hkey : pyLower (pyStrip name1) = pyLower (pyStrip name2)) :
    geocode net maxsize (geocode net maxsize st name1).2 name2 =
      ((geocode net maxsize st name1).1, (geocode net maxsize st name1).2) := by
  by_cases h1 : pyStrip name1 = []
  · have h2 : pyStrip name2 = [] := by
      apply (pyLower_eq_nil _).mp
      rw [← hkey, h1]
      rfl
    have e1 : geocode net maxsize st name1 = (none, st) := by
      unfold geocode
      rw [if_pos (Or.inr h1)]
    rw [e1]
    unfold geocode
    rw [if_pos (Or.inr h2)]
  · have h2 : pyStrip name2 ≠ [] := by
      intro hc
      apply h1
      apply (pyLower_eq_nil _).mp
      rw [hkey, hc]
      rfl
    have g1 : ¬(name1 = [] ∨ pyStrip name1 = []) := by
      rintro (hc | hc)
      · exact h1 (by rw [hc]; rfl)
      · exact h1 hc
    have g2 : ¬(name2 = [] ∨ pyStrip name2 = []) := by
      rintro (hc | hc)
      · exact h2 (by rw [hc]; rfl)
      · exact h2 hc
    cases hc : cacheLookup st.cache (pyLower (pyStrip name1)) with
    | some v =>
      have e1 : geocode net maxsize st name1 = (v, st) := by
        simp only [geocode]
        rw [if_neg g1]
        simp only [hc]
      rw [e1]
      simp only [geocode]
      rw [if_neg g2]
      have hc2 : cacheLookup st.cache (pyLower (pyStrip name2)) = some v := by
        rw [← hkey]
        exact hc
      simp only [hc2]
    | none =>
      have e1 : geocode net maxsize st name1 =
          (net name1,
           { cache := (if maxsize ≤ st.cache.length then st.cache.tail else st.cache) ++
               [(pyLower (pyStrip name1), net name1)],
             requests := st.requests + 1 }) := by
        simp only [geocode]
        rw [if_neg g1]
        simp only [hc]
      rw [e1]
      simp only [geocode]
      rw [if_neg g2]
      have hevict : cacheLookup (if maxsize ≤ st.cache.length then st.cache.tail else st.cache)
          (pyLower (pyStrip name1)) = none := by
        split
        · exact cacheLookup_tail_none st.cache _ hc
        · exact hc
      have hb : cacheLookup
          ((if maxsize ≤ st.cache.length then st.cache.tail else st.cache) ++
            [(pyLower (pyStrip name1), net name1)]) (pyLower (pyStrip name2)) =
          some (net name1) := by
        rw [← hkey]
        exact cacheLookup_append_self _ _ _ hevict
      simp only [hb]

/-- Witness for C6_geocode_second_call_cached: the queries "Co" and " cO "
share a cache key; the external service answers nothing, and the negative
outcome is served from the cache on the second call. -/
theorem C6_witness :
    geocode (fun _ => none) 2048
        (geocode (fun _ => none) 2048 ⟨[], 0⟩ [67, 111]).2 [32, 99, 79, 32] =
      ((geocode (fun _ => none) 2048 ⟨[], 0⟩ [67, 111]).1,
       (geocode (fun _ => none) 2048 ⟨[], 0⟩ [67, 111]).2) :=
  C6_geocode_second_call_cached (fun _ => none) 2048 ⟨[], 0⟩ [67, 111] [32, 99, 79, 32]
    (by decide) (by decide)


-- ═══════════════════════════════════════════════════════════════════
-- Claim C3 — external_id determinism and (non-)injectivity
-- ═══════════════════════════════════════════════════════════════════

theorem hexDigit_mem (n : Nat) : hexDigit n ∈ hexDigitsList := by
  unfold hexDigit
  rcases Nat.lt_or_ge n hexDigitsList.length with h | h
  · rw [List.getD_eq_getElem _ _ h]
    exact List.getElem_mem h
  · rw [List.getD_eq_default _ _ h]
    decide

theorem hexDigest_mem (bytes : List Nat) :
    ∀ c ∈ hexDigest bytes, c ∈ hexDigitsList := by
  intro c hc
  unfold hexDigest at hc
  obtain ⟨chunk, hchunk, hcmem⟩ := List.mem_flatten.mp hc
  obtain ⟨b, _, rfl⟩ := List.mem_map.mp hchunk
  unfold byteHex at hcmem
  rcases List.mem_cons.mp hcmem with rfl | h2
  · exact hexDigit_mem _
  · rw [List.mem_singleton.mp h2]
    exact hexDigit_mem _

theorem hexDigest_length (bytes : List Nat) :
    (hexDigest bytes).length = 2 * bytes.length := by
  induction bytes with
  | nil => rfl
  | cons b rest ih =>
    simp only [hexDigest, List.map_cons, List.flatten_cons, List.length_append] at *
    rw [ih]
    simp [byteHex]
    omega

theorem sha256Bytes_length (msg : List Nat) : (sha256Bytes msg).length = 32 := by
  simp [sha256Bytes, wordBytesBE]

theorem externalIdOf_length (key : PyStr) : (externalIdOf key).length = 32 := by
  unfold externalIdOf
  rw [List.length_take, hexDigest_length, sha256Bytes_length]
  omega

theorem externalIdOf_mem (key : PyStr) :
    ∀ c ∈ externalIdOf key, c ∈ hexDigitsList := by
  intro c hc
  unfold externalIdOf at hc
  exact hexDigest_mem _ c (List.mem_of_mem_take hc)

theorem hexVal_lt (c : Nat) (h : c ∈ hexDigitsList) : hexVal c < 16 := by
  fin_cases h <;> decide

theorem hexVal_inj (c1 c2 : Nat) (h1 : c1 ∈ hexDigitsList) (h2 : c2 ∈ hexDigitsList)
    (he : hexVal c1 = hexVal c2) : c1 = c2 := by
  fin_cases h1 <;> fin_cases h2 <;> first | rfl | (exfalso; revert he; decide)

theorem hexNum_lt (s : PyStr) (h : ∀ c ∈ s, c ∈ hexDigitsList) :
    hexNum s < 16 ^ s.length := by
  induction s with
  | nil => simp [hexNum]
  | cons c rest ih =>
    have hc : hexVal c < 16 := hexVal_lt c (h c (List.mem_cons_self c rest))
    have hr : hexNum rest < 16 ^ rest.length :=
      ih (fun x hx => h x (List.mem_cons_of_mem c hx))
    simp only [hexNum, List.length_cons, pow_succ]
    calc hexVal c * 16 ^ rest.length + hexNum rest
        < hexVal c * 16 ^ rest.length + 16 ^ rest.length := by omega
      _ = (hexVal c + 1) * 16 ^ rest.length := by ring
      _ ≤ 16 * 16 ^ rest.length := by
          have : hexVal c + 1 ≤ 16 := hc
          exact Nat.mul_le_mul_right _ this
      _ = 16 ^ rest.length * 16 := by ring

theorem hexNum_inj :
    ∀ (s1 s2 : PyStr), s1.length = s2.length →
      (∀ c ∈ s1, c ∈ hexDigitsList) → (∀ c ∈ s2, c ∈ hexDigitsList) →
      hexNum s1 = hexNum s2 → s1 = s2 := by
  intro s1
  induction s1 with
  | nil =>
    intro s2 hlen _ _ _
    cases s2 with
    | nil => rfl
    | cons c rest => simp at hlen
  | cons c1 r1 ih =>
    intro s2 hlen hm1 hm2 hnum
    cases s2 with
    | nil => simp at hlen
    | cons c2 r2 =>
      have hlen2 : r1.length = r2.length := by simpa using hlen
      simp only [hexNum, hlen2] at hnum
      have hb1 : hexNum r1 < 16 ^ r2.length := by
        rw [← hlen2]
        exact hexNum_lt r1 (fun x hx => hm1 x (List.mem_cons_of_mem c1 hx))
      have hb2 : hexNum r2 < 16 ^ r2.length :=
        hexNum_lt r2 (fun x hx => hm2 x (List.mem_cons_of_mem c2 hx))
      have hveq : hexVal c1 = hexVal c2 := by
        by_contra hne
        rcases Nat.lt_or_ge (hexVal c1) (hexVal c2) with hlt | hge
        · have : hexVal c1 * 16 ^ r2.length + hexNum r1 <
              hexVal c2 * 16 ^ r2.length + hexNum r2 := by
            have h1 : hexVal c1 * 16 ^ r2.length + hexNum r1 <
                (hexVal c1 + 1) * 16 ^ r2.length := by
              have hexp : (hexVal c1 + 1) * 16 ^ r2.length =
                  hexVal c1 * 16 ^ r2.length + 16 ^ r2.length := by ring
              rw [hexp]
              omega
            have h2 : (hexVal c1 + 1) * 16 ^ r2.length ≤ hexVal c2 * 16 ^ r2.length :=
              Nat.mul_le_mul_right _ hlt
            omega
          omega
        · have hgt : hexVal c2 < hexVal c1 := by omega
          have : hexVal c2 * 16 ^ r2.length + hexNum r2 <
              hexVal c1 * 16 ^ r2.length + hexNum r1 := by
            have h1 : hexVal c2 * 16 ^ r2.length + hexNum r2 <
                (hexVal c2 + 1) * 16 ^ r2.length := by
              have hexp : (hexVal c2 + 1) * 16 ^ r2.length =
                  hexVal c2 * 16 ^ r2.length + 16 ^ r2.length := by ring
              rw [hexp]
              omega
            have h2 : (hexVal c2 + 1) * 16 ^ r2.length ≤ hexVal c1 * 16 ^ r2.length :=
              Nat.mul_le_mul_right _ hgt
            omega
          omega
      have hceq : c1 = c2 :=
        hexVal_inj c1 c2 (hm1 c1 (List.mem_cons_self c1 r1))
          (hm2 c2 (List.mem_cons_self c2 r2)) hveq
      have hreq : r1 = r2 := by
        apply ih r2 hlen2 (fun x hx => hm1 x (List.mem_cons_of_mem c1 hx))
          (fun x hx => hm2 x (List.mem_cons_of_mem c2 hx))
        rw [hveq] at hnum
        omega
      rw [hceq, hreq]

/-- Claim C3, as stated, is false: the external id is the SHA-256 digest
truncated to 32 hex characters (128 bits), so by cardinality the map from
upstream identifiers to external ids cannot be injective — distinct upstream
documents with colliding truncated digests are indistinguishable. -/
theorem rssExternalId_length (link : PyStr) : (rssExternalId link).length = 32 :=
  externalIdOf_length _

theorem rssExternalId_mem (link : PyStr) :
    ∀ c ∈ rssExternalId link, c ∈ hexDigitsList :=
  externalIdOf_mem _

theorem C3_counterexample : ¬ Function.Injective rssExternalId := by
  intro hinj
  have hmaps : ∀ n ∈ Finset.range (16 ^ 32 + 1),
      hexNum (rssExternalId (List.replicate n 97)) ∈ Finset.range (16 ^ 32) := by
    intro n _
    rw [Finset.mem_range]
    have := hexNum_lt (rssExternalId (List.replicate n 97))
      (rssExternalId_mem _)
    rwa [rssExternalId_length] at this
  obtain ⟨a, ha, b, hb, hab, heq⟩ :=
    Finset.exists_ne_map_eq_of_card_lt_of_maps_to
      (by simp [Finset.card_range]) hmaps
  have hid : rssExternalId (List.replicate a 97) = rssExternalId (List.replicate b 97) := by
    apply hexNum_inj _ _ (by rw [rssExternalId_length, rssExternalId_length])
      (rssExternalId_mem _) (rssExternalId_mem _) heq
  have hrep : List.replicate a 97 = List.replicate b 97 := hinj hid
  have : a = b := by
    have := congrArg List.length hrep
    simpa using this
  exact hab this

/-- C3 amended: within each adapter the prefixed pre-hash key is an injective
function of the upstream identifier, keys of different adapters never
coincide, and the external id is a deterministic function of the key — so
distinct external ids always mean distinct upstream documents, and equal
external ids mean the same upstream document except when the truncated
128-bit SHA-256 digests of two distinct keys collide. -/
theorem C3_amended :
    (∀ l1 l2 : PyStr, keyRss ++ l1 = keyRss ++ l2 → l1 = l2) ∧
    (∀ e1 e2 : PyStr, keyGdelt ++ e1 = keyGdelt ++ e2 → e1 = e2) ∧
    (∀ n1 n2 : PyStr, keyCvr ++ n1 = keyCvr ++ n2 → n1 = n2) ∧
    (∀ l g : PyStr, keyRss ++ l ≠ keyGdelt ++ g) ∧
    (∀ l n : PyStr, keyRss ++ l ≠ keyCvr ++ n) ∧
    (∀ g n : PyStr, keyGdelt ++ g ≠ keyCvr ++ n) ∧
    (∀ l1 l2 : PyStr, rssExternalId l1 ≠ rssExternalId l2 → l1 ≠ l2) ∧
    (∀ e1 e2 : PyStr, gdeltExternalId e1 ≠ gdeltExternalId e2 → e1 ≠ e2) ∧
    (∀ n1 n2 : PyStr, cvrExternalId n1 ≠ cvrExternalId n2 → n1 ≠ n2) := by
  refine ⟨fun l1 l2 h => ?_, fun e1 e2 h => ?_, fun n1 n2 h => ?_,
    fun l g h => ?_, fun l n h => ?_, fun g n h => ?_,
    fun l1 l2 h he => h (by rw [he]), fun e1 e2 h he => h (by rw [he]),
    fun n1 n2 h he => h (by rw [he])⟩
  · exact List.append_cancel_left h
  · exact List.append_cancel_left h
  · exact List.append_cancel_left h
  · simpa [keyRss, keyGdelt] using congrArg (fun s => s.headD 0) h
  · simpa [keyRss, keyCvr] using congrArg (fun s => s.headD 0) h
  · simpa [keyGdelt, keyCvr] using congrArg (fun s => s.headD 0) h

/-- Witness for C3_amended at concrete identifiers. -/
theorem C3_amended_witness :
    (([97] : PyStr) = [97]) ∧ (([98] : PyStr) ≠ [99]) :=
  ⟨C3_amended.1 [97] [97] rfl,
   C3_amended.2.2.2.2.2.2.1 [98] [99] (by decide)⟩


-- ═══════════════════════════════════════════════════════════════════
-- Claim C4 — pairwise distinctness of the deduplicated entities
-- ═══════════════════════════════════════════════════════════════════

theorem similarityGe_iff (θ : Rat) (a b : PyStr) :
    similarityGe θ a b = true ↔ θ ≤ similarity a b := by
  unfold similarityGe similarity
  by_cases he : a = [] ∨ b = []
  · rw [if_pos he, if_pos he]
    exact decide_eq_true_iff
  · rw [if_neg he, if_neg he]
    rw [decide_eq_true_iff]
    unfold smRatio
    have ha : a ≠ [] := fun h => he (Or.inl h)
    have hb : b ≠ [] := fun h => he (Or.inr h)
    have hla : pyLower a ≠ [] := fun h => ha ((pyLower_eq_nil a).mp h)
    have hlb : pyLower b ≠ [] := fun h => hb ((pyLower_eq_nil b).mp h)
    have hlen : (pyLower a).length + (pyLower b).length ≠ 0 := by
      cases hpa : pyLower a with
      | nil => exact absurd hpa hla
      | cons x xs => simp
    rw [if_neg hlen]
    have hT : (0 : ℚ) < ((pyLower a).length : ℚ) + ((pyLower b).length : ℚ) := by
      have : 0 < (pyLower a).length + (pyLower b).length := Nat.pos_of_ne_zero hlen
      exact_mod_cast this
    have hden : (0 : ℚ) < (θ.den : ℚ) := by
      exact_mod_cast Nat.pos_of_ne_zero θ.den_nz
    rw [show (θ : ℚ) ≤ (2 * smMatches (pyLower a) (pyLower b) : ℚ) /
          (((pyLower a).length : ℚ) + ((pyLower b).length : ℚ)) ↔
        (θ.num : ℚ) / (θ.den : ℚ) ≤ (2 * smMatches (pyLower a) (pyLower b) : ℚ) /
          (((pyLower a).length : ℚ) + ((pyLower b).length : ℚ)) from by
      rw [Rat.num_div_den θ]]
    rw [div_le_div_iff hden hT]
    constructor
    · intro h
      have h2 : (θ.num : ℚ) * (((pyLower a).length : ℚ) + ((pyLower b).length : ℚ)) ≤
          (2 * smMatches (pyLower a) (pyLower b) : ℚ) * (θ.den : ℚ) := by
        exact_mod_cast h
      exact_mod_cast h2
    · intro h
      have h2 : (θ.num : ℚ) * (((pyLower a).length : ℚ) + ((pyLower b).length : ℚ)) ≤
          (2 * smMatches (pyLower a) (pyLower b) : ℚ) * (θ.den : ℚ) := by
        exact_mod_cast h
      exact_mod_cast h2

theorem mergeEntity_name_of_not_longer (c : NormalisedEntity) (ent : ExtractedEntity)
    (h : ¬ c.name.length < (normalizeName ent.name).length) :
    (mergeEntity c ent).name = c.name := by
  simp only [mergeEntity]
  rw [if_neg h]

theorem pairwise_listModify (θ : Rat) (f : NormalisedEntity → NormalisedEntity) :
    ∀ (l : List NormalisedEntity) (i : Nat),
      (f (l.getD i default)).name = (l.getD i default).name →
      (f (l.getD i default)).type = (l.getD i default).type →
      List.Pairwise (simBelow θ) l → List.Pairwise (simBelow θ) (listModify f i l) := by
  intro l
  induction l with
  | nil => intro i _ _ _; cases i <;> exact List.Pairwise.nil
  | cons x xs ih =>
    intro i hname htype hpw
    rw [List.pairwise_cons] at hpw
    cases i with
    | zero =>
      have hx : (x :: xs).getD 0 default = x := rfl
      rw [hx] at hname htype
      show List.Pairwise (simBelow θ) (f x :: xs)
      rw [List.pairwise_cons]
      refine ⟨fun y hy hty => ?_, hpw.2⟩
      rw [hname]
      exact hpw.1 y hy (hty.trans htype)
    | succ n =>
      have hx : (x :: xs).getD (n + 1) default = xs.getD n default := rfl
      rw [hx] at hname htype
      show List.Pairwise (simBelow θ) (x :: listModify f n xs)
      rw [List.pairwise_cons]
      refine ⟨fun y hy => ?_, ih n hname htype hpw.2⟩
      rcases mem_listModify f xs n y hy with h2 | ⟨hlt, rfl⟩
      · exact hpw.1 y h2
      · intro hty
        rw [htype] at hty
        have := hpw.1 _ (getD_mem xs n hlt) hty
        rw [hname]
        exact this

theorem dedupGo_pairwise (θ : Rat) :
    ∀ (l : List ExtractedEntity) (acc : List NormalisedEntity),
      adoptionFreeGo θ l acc = true →
      List.Pairwise (simBelow θ) acc →
      List.Pairwise (simBelow θ) (dedupGo θ l acc) := by
  intro l
  induction l with
  | nil => intro acc _ hpw; exact hpw
  | cons ent rest ih =>
    intro acc hfree hpw
    cases hf : findMatch θ (normalizeName ent.name) ent.type acc with
    | some i =>
      simp only [adoptionFreeGo, hf] at hfree
      split at hfree
      · exact absurd hfree (by simp)
      · rename_i hlen
        simp only [dedupGo, hf]
        apply ih _ hfree
        apply pairwise_listModify θ _ acc i
          (mergeEntity_name_of_not_longer _ ent hlen) (mergeEntity_type _ ent) hpw
    | none =>
      simp only [adoptionFreeGo, hf] at hfree
      simp only [dedupGo, hf]
      apply ih _ hfree
      rw [List.pairwise_append]
      refine ⟨hpw, List.pairwise_singleton _ _, fun a ha b hb => ?_⟩
      rw [List.mem_singleton.mp hb]
      intro hty
      have hfalse := findMatchGo_none_all θ (normalizeName ent.name) ent.type acc 0 hf a ha
        (by exact hty.symm)
      have : ¬ (θ ≤ similarity (normalizeName ent.name) a.name) := by
        rw [← similarityGe_iff]
        simp [hfalse]
      exact lt_of_not_le this

/-- Claim C4, as stated, is false on the code: a merge that adopts a longer
name can leave two same-kind output entries whose names are within the
fuzzy threshold. -/
theorem C4_counterexample :
    ¬ List.Pairwise (simBelow defaultThreshold)
      (deduplicateEntities defaultThreshold c4Input) := by
  intro hp
  have hout : deduplicateEntities defaultThreshold c4Input =
      [⟨[65, 98, 99, 100, 101, 102, 103, 104, 105, 106], sorg, 2, [(0, 8), (18, 28)]⟩,
       ⟨[67, 100, 101, 102, 103, 104, 105, 106], sorg, 1, [(9, 17)]⟩] := by decide
  rw [hout, List.pairwise_cons] at hp
  have hlt := hp.1 _ (List.mem_singleton.mpr rfl) rfl
  have hge : similarityGe defaultThreshold
      [67, 100, 101, 102, 103, 104, 105, 106]
      [65, 98, 99, 100, 101, 102, 103, 104, 105, 106] = true := by decide
  rw [similarityGe_iff] at hge
  exact absurd hge (not_le_of_lt hlt)

/-- C4 amended: the resolver's output is pairwise distinct up to the fuzzy
threshold provided no merge adopts a longer name during the run; a
name-adopting merge can retroactively violate it (see the counterexample). -/
theorem C4_amended (θ : Rat) (entities : List ExtractedEntity)
    (hfree : adoptionFree θ entities = true) :
    List.Pairwise (simBelow θ) (deduplicateEntities θ entities) :=
  dedupGo_pairwise θ entities [] hfree List.Pairwise.nil

/-- Witness for C4_amended on an adoption-free input of two distinct kinds. -/
theorem C4_amended_witness :
    adoptionFree defaultThreshold
      [⟨[97, 99, 109, 101], sorg, 0, 4⟩, ⟨[98, 111, 98], sperson, 5, 8⟩] = true ∧
    List.Pairwise (simBelow defaultThreshold)
      (deduplicateEntities defaultThreshold
        [⟨[97, 99, 109, 101], sorg, 0, 4⟩, ⟨[98, 111, 98], sperson, 5, 8⟩]) :=
  ⟨by decide, C4_amended defaultThreshold _ (by decide)⟩


-- ═══════════════════════════════════════════════════════════════════
-- Claim C9 — non-emptiness of RawItem titles
-- ═══════════════════════════════════════════════════════════════════

theorem dropWhile_head_false (p : Nat → Bool) :
    ∀ (l : PyStr) (c : Nat) (t : PyStr), l.dropWhile p = c :: t → p c = false := by
  intro l
  induction l with
  | nil => intro c t h; simp [List.dropWhile] at h
  | cons x xs ih =>
    intro c t h
    by_cases hx : p x
    · rw [List.dropWhile_cons_of_pos hx] at h
      exact ih c t h
    · rw [List.dropWhile_cons_of_neg hx] at h
      cases h
      exact Bool.eq_false_iff.mpr hx

theorem mem_dropWhile_of_not (p : Nat → Bool) :
    ∀ (l : PyStr) (c : Nat), c ∈ l → p c = false → c ∈ l.dropWhile p := by
  intro l
  induction l with
  | nil => intro c hc; simp at hc
  | cons x xs ih =>
    intro c hc hpc
    by_cases hx : p x
    · rw [List.dropWhile_cons_of_pos hx]
      rcases List.mem_cons.mp hc with rfl | h2
      · rw [hx] at hpc
        exact Bool.noConfusion hpc
      · exact ih c h2 hpc
    · rw [List.dropWhile_cons_of_neg hx]
      exact hc

theorem dropWhile_subset (p : Nat → Bool) :
    ∀ (l : PyStr) (c : Nat), c ∈ l.dropWhile p → c ∈ l := by
  intro l
  induction l with
  | nil => intro c hc; simp [List.dropWhile] at hc
  | cons x xs ih =>
    intro c hc
    by_cases hx : p x
    · rw [List.dropWhile_cons_of_pos hx] at hc
      exact List.mem_cons_of_mem x (ih c hc)
    · rw [List.dropWhile_cons_of_neg hx] at hc
      exact hc

theorem mem_pyStrip (s : PyStr) (c : Nat) (hc : c ∈ s) (hpc : isPySpace c = false) :
    c ∈ pyStrip s := by
  unfold pyStrip
  rw [List.mem_reverse]
  apply mem_dropWhile_of_not _ _ c _ hpc
  rw [List.mem_reverse]
  exact mem_dropWhile_of_not _ _ c hc hpc

theorem pyStrip_subset (s : PyStr) (c : Nat) (hc : c ∈ pyStrip s) : c ∈ s := by
  unfold pyStrip at hc
  rw [List.mem_reverse] at hc
  have := dropWhile_subset _ _ c hc
  rw [List.mem_reverse] at this
  exact dropWhile_subset _ _ c this

theorem pyStrip_ne_nil_of_mem (s : PyStr) (c : Nat) (hc : c ∈ s)
    (hpc : isPySpace c = false) : pyStrip s ≠ [] :=
  List.ne_nil_of_mem (mem_pyStrip s c hc hpc)

theorem exists_nonws_of_pyStrip_ne_nil (s : PyStr) (h : pyStrip s ≠ []) :
    ∃ c ∈ pyStrip s, isPySpace c = false := by
  unfold pyStrip at h ⊢
  have hBne : (s.dropWhile isPySpace).reverse.dropWhile isPySpace ≠ [] :=
    fun hcon => h (by rw [hcon]; rfl)
  obtain ⟨c, t, hb⟩ := List.exists_cons_of_ne_nil hBne
  refine ⟨c, ?_, dropWhile_head_false _ _ c t hb⟩
  rw [hb, List.mem_reverse]
  exact List.mem_cons_self c t

theorem pyStrip_strip_ne_nil (s : PyStr) (h : pyStrip s ≠ []) :
    pyStrip (pyStrip s) ≠ [] := by
  obtain ⟨c, hc, hpc⟩ := exists_nonws_of_pyStrip_ne_nil s h
  exact pyStrip_ne_nil_of_mem _ c hc hpc

theorem mem_pyJoin_of_mem_part (sep : PyStr) :
    ∀ (parts : List PyStr) (w : PyStr), w ∈ parts → ∀ c ∈ w, c ∈ pyJoin sep parts := by
  intro parts
  induction parts with
  | nil => intro w hw; simp at hw
  | cons w1 rest ih =>
    intro w hw c hc
    cases rest with
    | nil =>
      rcases List.mem_cons.mp hw with rfl | h2
      · exact hc
      · simp at h2
    | cons w2 rest2 =>
      have hjoin : pyJoin sep (w1 :: w2 :: rest2) = w1 ++ sep ++ pyJoin sep (w2 :: rest2) := rfl
      rw [hjoin]
      rcases List.mem_cons.mp hw with rfl | h2
      · exact List.mem_append_left _ (List.mem_append_left _ hc)
      · exact List.mem_append_right _ (ih w h2 c hc)

theorem cameo_values_nonws :
    (cameoCategoryMap.all
      (fun p => (underscoresToSpaces p.2).any (fun c => !isPySpace c))) = true ∧
    ((underscoresToSpaces sUnknown).any (fun c => !isPySpace c)) = true := by
  constructor <;> decide

theorem gdeltCategory_nonws (row : List PyStr) :
    ∃ c ∈ underscoresToSpaces (gdeltCategory row), isPySpace c = false := by
  unfold gdeltCategory assocGetD
  cases hf : cameoCategoryMap.find? (fun p => p.1 == safeCol row 26) with
  | none =>
    simp only [hf, Option.map_none', Option.getD_none]
    have h2 := cameo_values_nonws.2
    obtain ⟨c, hc, hpc⟩ := List.any_eq_true.mp h2
    exact ⟨c, hc, by simpa using hpc⟩
  | some p =>
    simp only [hf, Option.map_some', Option.getD_some]
    have hmem := List.mem_of_find?_eq_some hf
    have h1 := List.all_eq_true.mp cameo_values_nonws.1 p hmem
    obtain ⟨c, hc, hpc⟩ := List.any_eq_true.mp h1
    exact ⟨c, hc, by simpa using hpc⟩

theorem gdeltTitle_strip_ne_nil (row : List PyStr) : pyStrip (gdeltTitle row) ≠ [] := by
  unfold gdeltTitle
  obtain ⟨c0, hc0, hpc0⟩ := gdeltCategory_nonws row
  by_cases hj : pyJoin sepDashes
      ([safeCol row 6, underscoresToSpaces (gdeltCategory row), safeCol row 16].filter
        (fun p => p ≠ [])) = []
  · rw [if_pos hj]
    refine pyStrip_ne_nil_of_mem _ 71 ?_ (by decide)
    exact List.mem_append_left _ (by decide)
  · rw [if_neg hj]
    apply pyStrip_ne_nil_of_mem _ c0 _ hpc0
    apply mem_pyJoin_of_mem_part sepDashes _ (underscoresToSpaces (gdeltCategory row)) _ c0 hc0
    rw [List.mem_filter]
    refine ⟨by simp, ?_⟩
    simp only [decide_eq_true_eq]
    exact List.ne_nil_of_mem hc0

theorem cvrTitle_strip_ne_nil (data : CvrResponse)
    (hguard : ¬(cvrNumberOf data = [] ∧ cvrCompanyName data = [])) :
    pyStrip (cvrTitle data) ≠ [] := by
  unfold cvrTitle
  by_cases hnum : cvrNumberOf data = []
  · rw [if_neg (by simpa using hnum)]
    have hname : cvrCompanyName data ≠ [] := fun h => hguard ⟨hnum, h⟩
    exact pyStrip_strip_ne_nil _ hname
  · rw [if_pos hnum]
    apply pyStrip_ne_nil_of_mem _ 67 _ (by decide)
    exact List.mem_append_left _
      (List.mem_append_left _ (List.mem_append_right _ (by decide)))

/-- Claim C9, as stated, is false on the code: the RSS adapter takes the
entry title verbatim with an empty-string default, so an entry without a
title yields a RawItem whose title is empty after trimming. -/
theorem C9_counterexample :
    pyStrip (rssEntryToRawItem c9Env c9Entry [102]).title = [] := rfl

/-- C9 amended: every GDELT and every CVR RawItem has a title that is
non-empty after trimming; the RSS adapter alone can produce an
empty-after-trimming title (it copies the entry's title verbatim,
defaulting to the empty string). -/
theorem C9_amended :
    (∀ (row : List PyStr) (item : RawItem),
      gdeltRowToRawItem row = some item → pyStrip item.title ≠ []) ∧
    (∀ (data : CvrResponse) (item : RawItem),
      cvrResponseToRawItem data = some item → pyStrip item.title ≠ []) := by
  constructor
  · intro row item h
    unfold gdeltRowToRawItem at h
    by_cases h58 : row.length < 58
    · rw [if_pos h58] at h
      exact absurd h (by simp)
    · rw [if_neg h58] at h
      by_cases hgid : safeCol row 0 = []
      · rw [if_pos hgid] at h
        exact absurd h (by simp)
      · rw [if_neg hgid] at h
        have := Option.some.inj h
        rw [← this]
        exact gdeltTitle_strip_ne_nil row
  · intro data item h
    unfold cvrResponseToRawItem at h
    by_cases hguard : cvrNumberOf data = [] ∧ cvrCompanyName data = []
    · rw [if_pos hguard] at h
      exact absurd h (by simp)
    · rw [if_neg hguard] at h
      have := Option.some.inj h
      rw [← this]
      exact cvrTitle_strip_ne_nil data hguard

/-- Witness for C9_amended at a concrete CVR response (vat "123", name
"A"). -/
theorem C9_amended_witness :
    pyStrip ((cvrResponseToRawItem
      ⟨some [49, 50, 51], some [65], none, none, none⟩).getD default).title ≠ [] :=
  C9_amended.2 ⟨some [49, 50, 51], some [65], none, none, none⟩
    ((cvrResponseToRawItem ⟨some [49, 50, 51], some [65], none, none, none⟩).getD default)
    rfl


-- ═══════════════════════════════════════════════════════════════════
-- Claim C7 — idempotence of normalize_name
-- ═══════════════════════════════════════════════════════════════════

theorem decompOf_ascii (c : Nat) (h : c < 128) : decompOf c = none := by
  unfold decompOf
  rw [if_neg (by omega), if_neg (by omega), if_neg (by omega)]

theorem cccOf_ascii (c : Nat) (h : c < 128) : cccOf c = 0 := by
  unfold cccOf
  rw [if_neg (by omega), if_neg (by omega)]

theorem composeOf_ascii (a b : Nat) (h : a < 128) : composeOf a b = none := by
  unfold composeOf
  rw [if_neg (by omega), if_neg (by omega), if_neg (by omega)]

theorem flatten_decompose_ascii (s : PyStr) (h : ∀ c ∈ s, c < 128) :
    (s.map (decomposeCh 4)).flatten = s := by
  induction s with
  | nil => rfl
  | cons c rest ih =>
    have hc : decomposeCh 4 c = [c] := by
      unfold decomposeCh
      rw [decompOf_ascii c (h c (List.mem_cons_self c rest))]
    simp only [List.map_cons, List.flatten_cons, hc]
    rw [ih (fun x hx => h x (List.mem_cons_of_mem c hx))]
    rfl

theorem reorderGo_zero (rest : PyStr) :
    ∀ a, (∀ c ∈ rest, cccOf c = 0) → reorderGo a rest = a :: rest := by
  induction rest with
  | nil => intro a _; rfl
  | cons b r ih =>
    intro a h
    unfold reorderGo
    rw [if_neg (by
      intro hcon
      exact hcon.1 (h b (List.mem_cons_self b r)))]
    rw [ih b (fun x hx => h x (List.mem_cons_of_mem b hx))]

theorem reorderPass_zero (s : PyStr) (h : ∀ c ∈ s, cccOf c = 0) :
    reorderPass s = s := by
  cases s with
  | nil => rfl
  | cons c rest =>
    unfold reorderPass
    exact reorderGo_zero rest c (fun x hx => h x (List.mem_cons_of_mem c hx))

theorem reorderN_zero (n : Nat) (s : PyStr) (h : ∀ c ∈ s, cccOf c = 0) :
    reorderN n s = s := by
  induction n with
  | zero => rfl
  | succ m ih =>
    unfold reorderN
    rw [reorderPass_zero s h, ih]

theorem composeGo_ascii_starter (s : PyStr) :
    (∀ c ∈ s, c < 128) → ∀ st, st < 128 → composeGo (some st) [] s = st :: s := by
  induction s with
  | nil => intro _ st _; rfl
  | cons c rest ih =>
    intro h st hst
    unfold composeGo
    rw [if_pos (cccOf_ascii c (h c (List.mem_cons_self c rest)))]
    rw [if_pos rfl, composeOf_ascii st c hst]
    simp only [List.cons_append, List.nil_append]
    rw [ih (fun x hx => h x (List.mem_cons_of_mem c hx)) c
      (h c (List.mem_cons_self c rest))]

theorem nfc_ascii (s : PyStr) (h : ∀ c ∈ s, c < 128) : nfc s = s := by
  unfold nfc canonicalOrder
  rw [flatten_decompose_ascii s h]
  rw [reorderN_zero s.length s (fun c hc => cccOf_ascii c (h c hc))]
  cases s with
  | nil => rfl
  | cons c rest =>
    unfold composeGo
    rw [if_pos (cccOf_ascii c (h c (List.mem_cons_self c rest)))]
    simp only [List.nil_append]
    exact composeGo_ascii_starter rest (fun x hx => h x (List.mem_cons_of_mem c hx)) c
      (h c (List.mem_cons_self c rest))

theorem isPySpace_false_mid (d : Nat) (h1 : 32 < d) (h2 : d < 133) :
    isPySpace d = false := by
  unfold isPySpace
  simp only [Bool.or_eq_false_iff, Bool.and_eq_false_iff, beq_eq_false_iff_ne, ne_eq,
    decide_eq_false_iff_not, not_le]
  omega

theorem lowerCh_ascii_spec (c : Nat) (h : c < 128) :
    ∃ d, d < 128 ∧ lowerCh c = [d] ∧ isCasedCh d = isCasedCh c ∧ lowerCh d = [d] ∧
      (isPySpace c = false → isPySpace d = false) := by
  by_cases hu : 65 ≤ c ∧ c ≤ 90
  · refine ⟨c + 32, by omega, ?_, ?_, ?_, fun _ => isPySpace_false_mid _ (by omega) (by omega)⟩
    · unfold lowerCh; rw [if_pos hu]
    · have h1 : isCasedCh (c + 32) = true := by
        unfold isCasedCh
        simp only [Bool.or_eq_true, Bool.and_eq_true, decide_eq_true_eq, beq_iff_eq]
        omega
      have h2 : isCasedCh c = true := by
        unfold isCasedCh
        simp only [Bool.or_eq_true, Bool.and_eq_true, decide_eq_true_eq, beq_iff_eq]
        omega
      rw [h1, h2]
    · unfold lowerCh
      rw [if_neg (by omega), if_neg (by omega), if_neg (by omega)]
  · refine ⟨c, h, ?_, rfl, ?_, fun hc => hc⟩ <;>
      (unfold lowerCh; rw [if_neg hu, if_neg (by omega), if_neg (by omega)])

theorem titleCh_ascii_spec (c : Nat) (h : c < 128) :
    ∃ d, d < 128 ∧ titleCh c = [d] ∧ isCasedCh d = isCasedCh c ∧ titleCh d = [d] ∧
      (isPySpace c = false → isPySpace d = false) := by
  by_cases hl : 97 ≤ c ∧ c ≤ 122
  · refine ⟨c - 32, by omega, ?_, ?_, ?_, fun _ => isPySpace_false_mid _ (by omega) (by omega)⟩
    · unfold titleCh; rw [if_pos hl]
    · have h1 : isCasedCh (c - 32) = true := by
        unfold isCasedCh
        simp only [Bool.or_eq_true, Bool.and_eq_true, decide_eq_true_eq, beq_iff_eq]
        omega
      have h2 : isCasedCh c = true := by
        unfold isCasedCh
        simp only [Bool.or_eq_true, Bool.and_eq_true, decide_eq_true_eq, beq_iff_eq]
        omega
      rw [h1, h2]
    · unfold titleCh
      rw [if_neg (by omega), if_neg (by omega), if_neg (by omega), if_neg (by omega)]
  · refine ⟨c, h, ?_, rfl, ?_, fun hc => hc⟩ <;>
      (unfold titleCh;
       rw [if_neg hl, if_neg (by omega), if_neg (by omega), if_neg (by omega)])

theorem pyTitleGo_idem_ascii (s : PyStr) :
    (∀ c ∈ s, c < 128) → ∀ b, pyTitleGo b (pyTitleGo b s) = pyTitleGo b s := by
  induction s with
  | nil => intro _ b; rfl
  | cons c rest ih =>
    intro h b
    have hc : c < 128 := h c (List.mem_cons_self c rest)
    have hrest : ∀ x ∈ rest, x < 128 := fun x hx => h x (List.mem_cons_of_mem c hx)
    cases b with
    | true =>
      obtain ⟨d, _, hmap, hcase, hfix, _⟩ := lowerCh_ascii_spec c hc
      show pyTitleGo true (lowerCh c ++ pyTitleGo (isCasedCh c) rest) =
        lowerCh c ++ pyTitleGo (isCasedCh c) rest
      rw [hmap]
      show lowerCh d ++ pyTitleGo (isCasedCh d) (pyTitleGo (isCasedCh c) rest) =
        d :: pyTitleGo (isCasedCh c) rest
      rw [hfix, hcase, ih hrest (isCasedCh c)]
      rfl
    | false =>
      obtain ⟨d, _, hmap, hcase, hfix, _⟩ := titleCh_ascii_spec c hc
      show pyTitleGo false (titleCh c ++ pyTitleGo (isCasedCh c) rest) =
        titleCh c ++ pyTitleGo (isCasedCh c) rest
      rw [hmap]
      show titleCh d ++ pyTitleGo (isCasedCh d) (pyTitleGo (isCasedCh c) rest) =
        d :: pyTitleGo (isCasedCh c) rest
      rw [hfix, hcase, ih hrest (isCasedCh c)]
      rfl

theorem pyTitleGo_mem_spec (s : PyStr) :
    (∀ c ∈ s, c < 128 ∧ isPySpace c = false) → ∀ b d, d ∈ pyTitleGo b s →
      d < 128 ∧ isPySpace d = false := by
  induction s with
  | nil => intro _ b d hd; simp [pyTitleGo] at hd
  | cons c rest ih =>
    intro h b d hd
    have hc := h c (List.mem_cons_self c rest)
    have hrest : ∀ x ∈ rest, x < 128 ∧ isPySpace x = false :=
      fun x hx => h x (List.mem_cons_of_mem c hx)
    cases b with
    | true =>
      obtain ⟨e, he, hmap, _, _, hws⟩ := lowerCh_ascii_spec c hc.1
      rw [show pyTitleGo true (c :: rest) = lowerCh c ++ pyTitleGo (isCasedCh c) rest
        from rfl, hmap] at hd
      rcases List.mem_append.mp hd with h1 | h2
      · rw [List.mem_singleton.mp h1]; exact ⟨he, hws hc.2⟩
      · exact ih hrest (isCasedCh c) d h2
    | false =>
      obtain ⟨e, he, hmap, _, _, hws⟩ := titleCh_ascii_spec c hc.1
      rw [show pyTitleGo false (c :: rest) = titleCh c ++ pyTitleGo (isCasedCh c) rest
        from rfl, hmap] at hd
      rcases List.mem_append.mp hd with h1 | h2
      · rw [List.mem_singleton.mp h1]; exact ⟨he, hws hc.2⟩
      · exact ih hrest (isCasedCh c) d h2

theorem titleCh_ne_nil (c : Nat) : titleCh c ≠ [] := by
  unfold titleCh
  split
  · simp
  · split
    · simp
    · split
      · simp
      · split <;> simp

theorem pyTitleGo_ne_nil (s : PyStr) (hs : s ≠ []) (b : Bool) : pyTitleGo b s ≠ [] := by
  cases s with
  | nil => exact absurd rfl hs
  | cons c rest =>
    cases b with
    | true =>
      show lowerCh c ++ pyTitleGo (isCasedCh c) rest ≠ []
      intro hcon
      exact lowerCh_ne_nil c (List.append_eq_nil.mp hcon).1
    | false =>
      show titleCh c ++ pyTitleGo (isCasedCh c) rest ≠ []
      intro hcon
      exact titleCh_ne_nil c (List.append_eq_nil.mp hcon).1

theorem pyTitleGo_append (xs : PyStr) :
    ∀ b ys, pyTitleGo b (xs ++ ys) = pyTitleGo b xs ++ pyTitleGo (lastCasedAfter b xs) ys := by
  induction xs with
  | nil => intro b ys; rfl
  | cons c rest ih =>
    intro b ys
    show (if b then lowerCh c else titleCh c) ++ pyTitleGo (isCasedCh c) (rest ++ ys) = _
    rw [ih (isCasedCh c) ys]
    simp [pyTitleGo, lastCasedAfter, List.append_assoc]

theorem pyTitleGo_space32 (b : Bool) (rest : PyStr) :
    pyTitleGo b (32 :: rest) = 32 :: pyTitleGo false rest := by
  cases b <;> rfl

theorem pyTitle_join_distrib (ws : List PyStr) :
    pyTitle (pyJoin [32] ws) = pyJoin [32] (ws.map pyTitle) := by
  induction ws with
  | nil => rfl
  | cons w rest ih =>
    cases rest with
    | nil => rfl
    | cons w2 rest2 =>
      show pyTitleGo false (w ++ [32] ++ pyJoin [32] (w2 :: rest2)) = _
      rw [List.append_assoc, pyTitleGo_append w false ([32] ++ pyJoin [32] (w2 :: rest2))]
      rw [show ([32] ++ pyJoin [32] (w2 :: rest2)) = 32 :: pyJoin [32] (w2 :: rest2) from rfl]
      rw [pyTitleGo_space32]
      show pyTitle w ++ (32 :: pyTitle (pyJoin [32] (w2 :: rest2))) =
        pyJoin [32] (pyTitle w :: (w2 :: rest2).map pyTitle)
      rw [ih]
      show pyTitle w ++ (32 :: pyJoin [32] ((w2 :: rest2).map pyTitle)) =
        pyTitle w ++ [32] ++ pyJoin [32] ((w2 :: rest2).map pyTitle)
      cases hm : (w2 :: rest2).map pyTitle with
      | nil => simp at hm
      | cons u us => simp [List.append_assoc]

theorem pySplitGo_spec (s : PyStr) :
    ∀ acc, (∀ c ∈ acc, isPySpace c = false) → ∀ w ∈ pySplitGo s acc,
      w ≠ [] ∧ ∀ c ∈ w, isPySpace c = false ∧ (c ∈ s ∨ c ∈ acc) := by
  induction s with
  | nil =>
    intro acc hacc w hw
    unfold pySplitGo at hw
    split at hw
    · simp at hw
    · rename_i hne
      rw [List.mem_singleton.mp hw]
      refine ⟨by simpa using hne, fun c hc => ?_⟩
      rw [List.mem_reverse] at hc
      exact ⟨hacc c hc, Or.inr hc⟩
  | cons x rest ih =>
    intro acc hacc w hw
    unfold pySplitGo at hw
    by_cases hx : isPySpace x
    · rw [if_pos hx] at hw
      split at hw
      · obtain ⟨hne, hmem⟩ := ih [] (by simp) w hw
        refine ⟨hne, fun c hc => ?_⟩
        obtain ⟨hws, hor⟩ := hmem c hc
        refine ⟨hws, ?_⟩
        rcases hor with h1 | h1
        · exact Or.inl (List.mem_cons_of_mem x h1)
        · simp at h1
      · rename_i hne
        rcases List.mem_cons.mp hw with rfl | h2
        · refine ⟨by simpa using hne, fun c hc => ?_⟩
          rw [List.mem_reverse] at hc
          exact ⟨hacc c hc, Or.inr hc⟩
        · obtain ⟨hne2, hmem⟩ := ih [] (by simp) w h2
          refine ⟨hne2, fun c hc => ?_⟩
          obtain ⟨hws, hor⟩ := hmem c hc
          refine ⟨hws, ?_⟩
          rcases hor with h1 | h1
          · exact Or.inl (List.mem_cons_of_mem x h1)
          · simp at h1
    · rw [if_neg hx] at hw
      have hacc2 : ∀ c ∈ x :: acc, isPySpace c = false := by
        intro c hc
        rcases List.mem_cons.mp hc with rfl | h2
        · exact Bool.eq_false_iff.mpr hx
        · exact hacc c h2
      obtain ⟨hne, hmem⟩ := ih (x :: acc) hacc2 w hw
      refine ⟨hne, fun c hc => ?_⟩
      obtain ⟨hws, hor⟩ := hmem c hc
      refine ⟨hws, ?_⟩
      rcases hor with h1 | h1
      · exact Or.inl (List.mem_cons_of_mem x h1)
      · rcases List.mem_cons.mp h1 with rfl | h2
        · exact Or.inl (List.mem_cons_self c rest)
        · exact Or.inr h2

theorem pySplit_spec (s : PyStr) :
    ∀ w ∈ pySplit s, w ≠ [] ∧ ∀ c ∈ w, isPySpace c = false ∧ c ∈ s := by
  intro w hw
  obtain ⟨hne, hmem⟩ := pySplitGo_spec s [] (by simp) w hw
  refine ⟨hne, fun c hc => ?_⟩
  obtain ⟨hws, hor⟩ := hmem c hc
  refine ⟨hws, ?_⟩
  rcases hor with h1 | h1
  · exact h1
  · simp at h1

theorem pySplitGo_cons_nonws (c : Nat) (hc : isPySpace c = false) (r acc : PyStr) :
    pySplitGo (c :: r) acc = pySplitGo r (c :: acc) := by
  rw [show pySplitGo (c :: r) acc =
    if isPySpace c then
      (if acc = [] then pySplitGo r [] else acc.reverse :: pySplitGo r [])
    else pySplitGo r (c :: acc) from rfl, hc]
  simp

theorem pySplitGo_cons_ws (c : Nat) (hc : isPySpace c = true) (r acc : PyStr) :
    pySplitGo (c :: r) acc =
      if acc = [] then pySplitGo r [] else acc.reverse :: pySplitGo r [] := by
  rw [show pySplitGo (c :: r) acc =
    if isPySpace c then
      (if acc = [] then pySplitGo r [] else acc.reverse :: pySplitGo r [])
    else pySplitGo r (c :: acc) from rfl, hc]
  simp

theorem pySplitGo_nil_arg (acc : PyStr) :
    pySplitGo [] acc = if acc = [] then [] else [acc.reverse] := by
  cases acc <;> rfl

theorem pySplitGo_word (w : PyStr) :
    ∀ t acc, (∀ c ∈ w, isPySpace c = false) →
      pySplitGo (w ++ t) acc = pySplitGo t (w.reverse ++ acc) := by
  induction w with
  | nil => intro t acc _; rfl
  | cons c rest ih =>
    intro t acc h
    rw [show (c :: rest) ++ t = c :: (rest ++ t) from rfl]
    rw [pySplitGo_cons_nonws c (h c (List.mem_cons_self c rest)) (rest ++ t) acc]
    rw [ih t (c :: acc) (fun x hx => h x (List.mem_cons_of_mem c hx))]
    simp [List.append_assoc]

theorem pySplit_join_words (ws : List PyStr)
    (h : ∀ w ∈ ws, w ≠ [] ∧ ∀ c ∈ w, isPySpace c = false) :
    pySplit (pyJoin [32] ws) = ws := by
  induction ws with
  | nil => rfl
  | cons w rest ih =>
    obtain ⟨hne, hws⟩ := h w (List.mem_cons_self w rest)
    cases rest with
    | nil =>
      show pySplitGo w [] = [w]
      have h0 := pySplitGo_word w [] [] hws
      rw [List.append_nil, List.append_nil] at h0
      rw [h0, pySplitGo_nil_arg, if_neg (by simpa using hne)]
      simp
    | cons w2 rest2 =>
      show pySplitGo (w ++ [32] ++ pyJoin [32] (w2 :: rest2)) [] = w :: w2 :: rest2
      rw [List.append_assoc, pySplitGo_word w ([32] ++ pyJoin [32] (w2 :: rest2)) [] hws]
      rw [show ([32] ++ pyJoin [32] (w2 :: rest2)) = 32 :: pyJoin [32] (w2 :: rest2) from rfl]
      rw [pySplitGo_cons_ws 32 (by decide) (pyJoin [32] (w2 :: rest2)) (w.reverse ++ [])]
      rw [if_neg (by simpa using hne)]
      rw [show pySplitGo (pyJoin [32] (w2 :: rest2)) [] = pySplit (pyJoin [32] (w2 :: rest2))
        from rfl]
      rw [ih (fun x hx => h x (List.mem_cons_of_mem w hx))]
      simp

theorem pyJoin_ne_nil (ws : List PyStr) (h1 : ws ≠ []) (h2 : ∀ w ∈ ws, w ≠ []) :
    pyJoin [32] ws ≠ [] := by
  cases ws with
  | nil => exact absurd rfl h1
  | cons w rest =>
    cases rest with
    | nil => exact h2 w (List.mem_cons_self w [])
    | cons w2 rest2 =>
      show w ++ [32] ++ pyJoin [32] (w2 :: rest2) ≠ []
      intro hcon
      have := List.append_eq_nil.mp (List.append_eq_nil.mp hcon).1
      exact absurd this.2 (by simp)

theorem mem_pyJoin32 (ws : List PyStr) :
    ∀ c ∈ pyJoin [32] ws, c = 32 ∨ ∃ w ∈ ws, c ∈ w := by
  induction ws with
  | nil => intro c hc; simp [pyJoin] at hc
  | cons w rest ih =>
    intro c hc
    cases rest with
    | nil => exact Or.inr ⟨w, List.mem_cons_self w [], hc⟩
    | cons w2 rest2 =>
      rw [show pyJoin [32] (w :: w2 :: rest2) = w ++ [32] ++ pyJoin [32] (w2 :: rest2)
        from rfl] at hc
      rcases List.mem_append.mp hc with h1 | h1
      · rcases List.mem_append.mp h1 with h2 | h2
        · exact Or.inr ⟨w, List.mem_cons_self w _, h2⟩
        · exact Or.inl (List.mem_singleton.mp h2)
      · rcases ih c h1 with h2 | ⟨u, hu, hcu⟩
        · exact Or.inl h2
        · exact Or.inr ⟨u, List.mem_cons_of_mem w hu, hcu⟩

theorem normalizeName_titled (ws : List PyStr)
    (h : ∀ w ∈ ws, w ≠ [] ∧ ∀ c ∈ w, isPySpace c = false ∧ c < 128) :
    normalizeName (pyTitle (pyJoin [32] ws)) = pyTitle (pyJoin [32] ws) := by
  have hdis := pyTitle_join_distrib ws
  have hws2 : ∀ w ∈ ws.map pyTitle, w ≠ [] ∧ ∀ c ∈ w, isPySpace c = false ∧ c < 128 := by
    intro w hw
    obtain ⟨v, hv, hmap⟩ := List.mem_map.mp hw
    obtain ⟨hvne, hvc⟩ := h v hv
    constructor
    · rw [← hmap]
      exact pyTitleGo_ne_nil v hvne false
    · intro c hc
      rw [← hmap] at hc
      have := pyTitleGo_mem_spec v (fun x hx => ⟨(hvc x hx).2, (hvc x hx).1⟩) false c hc
      exact ⟨this.2, this.1⟩
  cases hn : ws with
  | nil => subst hn; rfl
  | cons w0 rest0 =>
    have hne : pyTitle (pyJoin [32] ws) ≠ [] := by
      rw [hdis]
      apply pyJoin_ne_nil
      · simp [hn]
      · exact fun w hw => (hws2 w hw).1
    have hascii : ∀ c ∈ pyTitle (pyJoin [32] ws), c < 128 := by
      intro c hc
      rw [hdis] at hc
      rcases mem_pyJoin32 (ws.map pyTitle) c hc with h1 | ⟨u, hu, hcu⟩
      · omega
      · exact ((hws2 u hu).2 c hcu).2
    rw [← hn] at *
    unfold normalizeName
    rw [if_neg hne, nfc_ascii _ hascii]
    rw [hdis, pySplit_join_words (ws.map pyTitle)
      (fun w hw => ⟨(hws2 w hw).1, fun c hc => ((hws2 w hw).2 c hc).1⟩)]
    rw [← hdis]
    exact pyTitleGo_idem_ascii (pyJoin [32] ws)
      (by
        intro c hc
        rcases mem_pyJoin32 ws c hc with h1 | ⟨u, hu, hcu⟩
        · omega
        · exact ((h u hu).2 c hcu).2) false

/-- Claim C7 as stated is false on the code: Python `str.title` maps U+0390
(GREEK SMALL LETTER IOTA WITH DIALYTIKA AND TONOS) to the decomposed
sequence U+0399 U+0308 U+0301 (no precomposed capital form exists), which a
second pass partially recomposes via NFC to U+03AA U+0301, so normalize_name
is not idempotent. -/
theorem C7_counterexample :
    normalizeName (normalizeName [0x390]) ≠ normalizeName [0x390] := by decide

/-- C7 amended: normalize_name is idempotent on every ASCII input (the NFC,
trim, whitespace-collapse and title-case steps all stabilise after one
application when no character has a multi-character or decomposing case
mapping); non-idempotence requires a codepoint such as U+0390 whose
titlecase mapping is not NFC-normalised. -/
theorem C7_amended (s : PyStr) (h : ∀ c ∈ s, c < 128) :
    normalizeName (normalizeName s) = normalizeName s := by
  by_cases hs : s = []
  · subst hs; rfl
  · have hinner : normalizeName s = pyTitle (pyJoin [32] (pySplit s)) := by
      unfold normalizeName
      rw [if_neg hs, nfc_ascii s h]
    rw [hinner]
    apply normalizeName_titled
    intro w hw
    obtain ⟨hne, hmem⟩ := pySplit_spec s w hw
    exact ⟨hne, fun c hc => ⟨(hmem c hc).1, h c (hmem c hc).2⟩⟩

/-- Witness for C7_amended at the ASCII string 'hi ho'. -/
theorem C7_amended_witness :
    (∀ c ∈ ([104, 105, 32, 104, 111] : PyStr), c < 128) ∧
      normalizeName (normalizeName [104, 105, 32, 104, 111]) =
        normalizeName [104, 105, 32, 104, 111] :=
  ⟨by decide, C7_amended [104, 105, 32, 104, 111] (by decide)⟩

end Enjin
